import Mathlib

/-!
Verification development for the parsing core of pyEvalData
(src/pyEvalData/io/palxfel.py): the PalSpecFile line parser and state
machine, the folder discovery loop, the Update entry point, and the
PalSpecScan.ReadData data materialization routine.

The code is shallowly embedded: text lines are lists of characters
(ASCII, each physical line is newline terminated, so the byte length of
a raw line is its character count plus one), Python exceptions are the
error side of Except, Python float values are represented by the token
they were converted from (the numeric value itself never matters for
the properties below), and the regular expressions of the module are
implemented as executable character-list functions.
-/

set_option maxRecDepth 20000

/-- Whitespace as stripped by Python str.strip and matched by the regex
class backslash-s (space, tab, newline, carriage return, vertical tab,
form feed). -/
def isPySpace (c : Char) : Bool :=
  c = ' ' || c = '\t' || c = '\n' || c = '\r' || c.toNat = 11 || c.toNat = 12

/-- Python line.strip(): remove leading and trailing whitespace. -/
def pyStrip (cs : List Char) : List Char :=
  ((cs.dropWhile isPySpace).reverse.dropWhile isPySpace).reverse

/-- Does the first list start with the second (anchored regex match of a
literal pattern, as re.match of a pattern without metacharacters)? -/
def startsWithL : List Char → List Char → Bool
  | _, [] => true
  | [], _ :: _ => false
  | c :: cs, p :: ps => c = p && startsWithL cs ps

/-- re.sub of a literal pattern with the empty string: remove every
non-overlapping occurrence, scanning left to right. The fuel argument
(instantiated with the length of the list, which bounds the number of
scan positions) makes the recursion structural so that the kernel can
evaluate it. -/
def removeAllSubF (p : List Char) : Nat → List Char → List Char
  | _, [] => []
  | 0, cs => cs
  | fuel + 1, c :: cs =>
    if p ≠ [] && startsWithL (c :: cs) p then
      removeAllSubF p fuel (List.drop (p.length - 1) cs)
    else
      c :: removeAllSubF p fuel cs

def removeAllSub (p : List Char) (cs : List Char) : List Char :=
  removeAllSubF p cs.length cs

/-- re.sub with the empty string of an anchored literal pattern (one
starting with a caret): remove the leading occurrence if present. -/
def dropPrefixIf (p : List Char) (cs : List Char) : List Char :=
  if startsWithL cs p then cs.drop p.length else cs

/-- re.split on one-or-more whitespace: pieces between maximal
whitespace runs, keeping empty pieces at either end (SPEC_multi_blank).
The boolean records whether the scan is inside a separator run. -/
def splitWSAux : List Char → List Char → Bool → List (List Char)
  | [], cur, _ => [cur.reverse]
  | c :: cs, cur, inSep =>
    if isPySpace c then
      if inSep then splitWSAux cs cur true
      else cur.reverse :: splitWSAux cs [] true
    else splitWSAux cs (c :: cur) false

def splitWS (cs : List Char) : List (List Char) := splitWSAux cs [] false

/-- re.split on two-or-more whitespace characters (SPEC_multi_blank2):
a single whitespace character stays inside a piece. -/
def splitWS2Aux : List Char → List Char → Bool → List (List Char)
  | [], cur, _ => [cur.reverse]
  | c :: cs, cur, true =>
    if isPySpace c then splitWS2Aux cs cur true
    else splitWS2Aux cs (c :: cur) false
  | c :: cs, cur, false =>
    if isPySpace c && (match cs with | d :: _ => isPySpace d | [] => false) then
      cur.reverse :: splitWS2Aux cs [] true
    else splitWS2Aux cs (c :: cur) false

def splitWS2 (cs : List Char) : List (List Char) := splitWS2Aux cs [] false

/-- re.sub replacing every maximal whitespace run by one space
(SPEC_multi_blank.sub applied with a single space). -/
def normBlanksAux : List Char → Bool → List Char
  | [], _ => []
  | c :: cs, inSep =>
    if isPySpace c then
      if inSep then normBlanksAux cs true else ' ' :: normBlanksAux cs true
    else c :: normBlanksAux cs false

def normBlanks (cs : List Char) : List Char := normBlanksAux cs false

/-- Does the time pattern of SPEC_time_format (two digits, colon, two
digits, colon, two digits) match at the head of the list? -/
def isTimeAt : List Char → Bool
  | a :: b :: c :: d :: e :: f :: g :: h :: _ =>
    a.isDigit && b.isDigit && c = ':' && d.isDigit && e.isDigit && f = ':' &&
    g.isDigit && h.isDigit
  | _ => false

/-- re.findall for SPEC_time_format: all non-overlapping occurrences,
scanning left to right (fuel as in removeAllSubF). -/
def timeFindAllF : Nat → List Char → List (List Char)
  | _, [] => []
  | 0, _ => []
  | fuel + 1, c :: cs =>
    if isTimeAt (c :: cs) then
      (c :: cs).take 8 :: timeFindAllF fuel (cs.drop 7)
    else
      timeFindAllF fuel cs

def timeFindAll (cs : List Char) : List (List Char) :=
  timeFindAllF cs.length cs

/-- re.sub for SPEC_time_format with the empty string: remove all
non-overlapping time occurrences (fuel as in removeAllSubF). -/
def timeRemoveAllF : Nat → List Char → List Char
  | _, [] => []
  | 0, cs => cs
  | fuel + 1, c :: cs =>
    if isTimeAt (c :: cs) then timeRemoveAllF fuel (cs.drop 7)
    else c :: timeRemoveAllF fuel cs

def timeRemoveAll (cs : List Char) : List Char :=
  timeRemoveAllF cs.length cs

/-- Character class of the SPEC_scanbroken and SPEC_scanresumed regexes:
letters, digits, colon, space and dot. -/
def inBClass (c : Char) : Bool :=
  c.isAlpha || c.isDigit || c = ':' || c = ' ' || c = '.'

/-- Walk forward over characters of the comment class looking for the
literal target: realizes the regex fragment class-star followed by the
target text. -/
def classRunSearch (target : List Char) : List Char → Bool
  | [] => startsWithL [] target
  | c :: cs =>
    startsWithL (c :: cs) target ||
    (inBClass c && classRunSearch target cs)

/-- re.findall for SPEC_scanbroken is non-empty: the line contains a
hash-C, then comment-class characters, then the text Scan aborted. -/
def scanbrokenContains : List Char → Bool
  | [] => false
  | c :: cs =>
    (c = '#' &&
      (match cs with
       | 'C' :: rest => classRunSearch "Scan aborted".data rest
       | _ => false)) ||
    scanbrokenContains cs

/-- Anchored re.match for SPEC_scanresumed: hash-C, comment-class
characters, then the text Scan resumed, at the start of the line. -/
def scanresumedMatch (cs : List Char) : Bool :=
  match cs with
  | '#' :: 'C' :: rest => classRunSearch "Scan resumed".data rest
  | _ => false

/-- Anchored match of SPEC_dataline: any number of plus or minus signs
followed by a digit, at the start of the line. -/
def isDataline (cs : List Char) : Bool :=
  match cs.dropWhile (fun c => c = '+' || c = '-') with
  | [] => false
  | c :: _ => c.isDigit

/-- Character classes appearing in the first alternative of the
SPEC_num_value regex. -/
inductive NTag | dig | dot | ee | sg | other
deriving DecidableEq, Repr

def ntag (c : Char) : NTag :=
  if c.isDigit then .dig
  else if c = '.' then .dot
  else if c = 'e' || c = 'E' then .ee
  else if c = '+' || c = '-' then .sg
  else .other

/-- May a character of the given class occupy the given slot of the
run pattern digits, dots, digits, e-signs, plus-minus, digits of the
first SPEC_num_value alternative? -/
def slotOk (t : NTag) (slot : Nat) : Bool :=
  match t with
  | .dig => slot = 0 || slot = 2 || slot = 5
  | .dot => slot = 1
  | .ee => slot = 3
  | .sg => slot = 4
  | .other => false

/-- Smallest admissible slot at least the given one, if any. -/
def nextSlot (t : NTag) (slot : Nat) : Option Nat :=
  (List.range 6).find? (fun i => decide (slot ≤ i) && slotOk t i)

/-- Compressed class-run sequence of a string: each tag is recorded
once per maximal run. -/
def runsOfAux : List Char → NTag → List NTag
  | [], _ => []
  | c :: cs, prev =>
    if ntag c = prev then runsOfAux cs prev
    else ntag c :: runsOfAux cs (ntag c)

def runsOf : List Char → List NTag
  | [] => []
  | c :: cs => ntag c :: runsOfAux cs (ntag c)

/-- Can the run sequence be assigned strictly increasing slots of the
pattern? -/
def runsFit : List NTag → Nat → Bool
  | [], _ => true
  | t :: ts, slot =>
    match nextSlot t slot with
    | none => false
    | some s2 => runsFit ts (s2 + 1)

/-- Membership in the sign-free part of the first SPEC_num_value
alternative: the class runs fit the pattern in order and the string
ends with a digit (the final one-or-more digit group is non-empty). -/
def coreMember (cs : List Char) : Bool :=
  cs ≠ [] &&
  (match cs.getLast? with | some c => c.isDigit | none => false) &&
  runsFit (runsOf cs) 0

/-- Membership in the first SPEC_num_value alternative, with the
optional leading sign. -/
def alt1Member (cs : List Char) : Bool :=
  coreMember cs ||
  (match cs with
   | c :: rest => (c = '+' || c = '-') && coreMember rest
   | [] => false)

/-- Length of the longest prefix matching the first alternative
(Python regex backtracking selects this match for that alternative). -/
def alt1MatchLen (cs : List Char) : Nat :=
  (List.range (cs.length + 1)).foldl
    (fun best l => if alt1Member (cs.take l) then l else best) 0

/-- Length matched by the second alternative, signed case-insensitive
inf, at the head of the list. -/
def infMatchLen (cs : List Char) : Nat :=
  match cs with
  | c :: rest =>
    if c = '+' || c = '-' then
      (match rest with
       | i :: n :: f :: _ =>
         if (i = 'i' || i = 'I') && (n = 'n' || n = 'N') && (f = 'f' || f = 'F')
         then 4 else 0
       | _ => 0)
    else
      (match cs with
       | i :: n :: f :: _ =>
         if (i = 'i' || i = 'I') && (n = 'n' || n = 'N') && (f = 'f' || f = 'F')
         then 3 else 0
       | _ => 0)
  | [] => 0

/-- Length matched by the third alternative, case-insensitive nan, at
the head of the list. -/
def nanMatchLen (cs : List Char) : Nat :=
  match cs with
  | n1 :: a :: n2 :: _ =>
    if (n1 = 'n' || n1 = 'N') && (a = 'a' || a = 'A') && (n2 = 'n' || n2 = 'N')
    then 3 else 0
  | _ => 0

/-- Length matched by SPEC_num_value at the head of the list, trying
the alternatives in the order the regex lists them. -/
def numMatchLen (cs : List Char) : Nat :=
  let a := alt1MatchLen cs
  if a > 0 then a
  else
    let i := infMatchLen cs
    if i > 0 then i else nanMatchLen cs

/-- re.findall for SPEC_num_value: scan left to right, at each position
take the match if one starts there, else advance one character (fuel
as in removeAllSubF). -/
def numFindAllF : Nat → List Char → List (List Char)
  | _, [] => []
  | 0, _ => []
  | fuel + 1, c :: cs =>
    let m := numMatchLen (c :: cs)
    if m > 0 then
      (c :: cs).take m :: numFindAllF fuel ((c :: cs).drop m)
    else
      numFindAllF fuel cs

def numFindAll (cs : List Char) : List (List Char) :=
  numFindAllF cs.length cs

/-- re.findall for SPEC_int_value (optional sign then digits). -/
def intMatchLen (cs : List Char) : Nat :=
  match cs with
  | c :: rest =>
    if c = '+' || c = '-' then
      let d := (rest.takeWhile Char.isDigit).length
      if d > 0 then d + 1 else 0
    else
      (cs.takeWhile Char.isDigit).length
  | [] => 0

def intFindAllF : Nat → List Char → List (List Char)
  | _, [] => []
  | 0, _ => []
  | fuel + 1, c :: cs =>
    let m := intMatchLen (c :: cs)
    if m > 0 then
      (c :: cs).take m :: intFindAllF fuel ((c :: cs).drop m)
    else
      intFindAllF fuel cs

def intFindAll (cs : List Char) : List (List Char) :=
  intFindAllF cs.length cs

/-- Digit group of a Python numeric literal as accepted by int() and
float(): digits with single underscores strictly between digits.
Returns the value, or none if the group is malformed or empty. -/
def digitGroup? : List Char → Option Nat
  | [] => none
  | c :: cs =>
    if c.isDigit then go (c.toNat - '0'.toNat) cs else none
where
  go (acc : Nat) : List Char → Option Nat
    | [] => some acc
    | c :: cs =>
      if c.isDigit then go (acc * 10 + (c.toNat - '0'.toNat)) cs
      else if c = '_' then
        match cs with
        | d :: cs2 => if d.isDigit then go (acc * 10 + (d.toNat - '0'.toNat)) cs2 else none
        | [] => none
      else none

/-- Python int() on a string: optional surrounding whitespace, optional
sign, digit group. Returns none exactly when int() raises ValueError. -/
def pyInt? (cs : List Char) : Option Int :=
  let t := pyStrip cs
  match t with
  | '+' :: rest => (digitGroup? rest).map (Int.ofNat ·)
  | '-' :: rest => (digitGroup? rest).map (fun n => -(Int.ofNat n))
  | _ => (digitGroup? t).map (Int.ofNat ·)

/-- Case-insensitive equality with an ASCII letter word. -/
def ciIs (cs : List Char) (w : List Char) : Bool :=
  cs.length = w.length &&
  (List.zip cs w).all (fun p => p.1.toLower = p.2.toLower)

/-- Exponent part of a Python float literal: e or E, optional sign,
digit group. -/
def expPartOk (cs : List Char) : Bool :=
  match cs with
  | e :: rest =>
    (e = 'e' || e = 'E') &&
    (match rest with
     | s :: r2 =>
       if s = '+' || s = '-' then (digitGroup? r2).isSome
       else (digitGroup? rest).isSome
     | [] => false)
  | [] => false

/-- Mantissa-and-exponent body of a Python float literal. -/
def floatBodyOk (cs : List Char) : Bool :=
  let intPart := cs.takeWhile (fun c => c.isDigit || c = '_')
  let rest := cs.drop intPart.length
  match rest with
  | '.' :: frac =>
    let fracPart := frac.takeWhile (fun c => c.isDigit || c = '_')
    let rest2 := frac.drop fracPart.length
    if intPart = [] then
      (digitGroup? fracPart).isSome && (rest2 = [] || expPartOk rest2)
    else
      (digitGroup? intPart).isSome &&
      (fracPart = [] || (digitGroup? fracPart).isSome) &&
      (rest2 = [] || expPartOk rest2)
  | _ =>
    intPart ≠ [] && (digitGroup? intPart).isSome &&
    (rest = [] || expPartOk rest)

/-- Does Python float() accept the string (returns false exactly when
float() raises ValueError)? -/
def pyFloatAccepts (cs : List Char) : Bool :=
  let t := pyStrip cs
  let body := match t with
              | c :: rest => if c = '+' || c = '-' then rest else t
              | [] => t
  ciIs body "inf".data || ciIs body "infinity".data || ciIs body "nan".data ||
  floatBodyOk body

/-- A Python float value, represented by the token it was converted
from; numpy.nan is its own constructor. Value equality is refined to
token equality, which is adequate for every property proved below. -/
inductive PyFloat
  | nan
  | ofTok (tok : String)
deriving DecidableEq, Repr

/-- Python exceptions raised by the embedded code. -/
inductive PyErr
  | unboundLocal (nm : String)
  | nameError (nm : String)
  | valueError
  | indexError
  | typeError
deriving DecidableEq, Repr

/-- The initial-motor-position branch of Parse: the whole token loop is
wrapped in one try-except ValueError, so conversion stops at the first
malformed token, keeping the values appended before it. -/
def appendFloats (acc : List PyFloat) : List (List Char) → List PyFloat
  | [] => acc
  | t :: ts =>
    if pyFloatAccepts t then
      appendFloats (acc ++ [PyFloat.ofTok (String.mk t)]) ts
    else acc

/-- MCA parameters as stored by SPECScan.SetMCAParams of xrayutilities
(an external collaborator of this module): column format, channel
count, start channel, stop channel. -/
structure MCAParams where
  colFormat : Int
  channels : Int
  startCh : Int
  stopCh : Int
deriving DecidableEq, Repr

/-- One scan record, the object built by PalSpecScan with the arguments
Parse passes; ischanged is initialized true by the SPECScan base class
and mca is some exactly when SetMCAParams was called. -/
structure SpecScanRec where
  name : String
  nr : Int
  command : String
  date : String
  time : String
  itime : PyFloat
  colnames : List String
  hoffset : Nat
  doffset : Option Nat
  fname : String
  init_mopo_names : List String
  init_mopo_values : List PyFloat
  scan_status : String
  mca : Option MCAParams
  ischanged : Bool
deriving DecidableEq, Repr

/-- Persistent attributes of a PalSpecFile object used by the parsing
core: the shared scan list, the resume offset (None representable),
the configured scan-number list, the sequential scan cursor, the three
initial-motor-name lists, and the file currently being parsed. -/
structure PalState where
  scan_list : List SpecScanRec
  last_offset : Option Nat
  scan_in_list : List Int
  curr_scan_nb : Int
  init_motor_names_fh : List String
  init_motor_names_sh : List String
  init_motor_names : List String
  full_filename : String
deriving DecidableEq, Repr

/-- State of one Parse call: the object state plus the local variables
of the parsing loop. Locals that Python leaves unbound until first
assignment are Options; reading none raises UnboundLocalError. The
byte cursor off is self.last_offset as advanced inside the loop. -/
structure LoopSt where
  st : PalState
  off : Nat
  started : Bool
  hasMca : Bool
  motorVals : List PyFloat
  scannr : Option Int
  scancmd : Option String
  date : Option String
  time : Option String
  itime : Option PyFloat
  colNames : Option (List String)
  hOffset : Option Nat
  scanStatus : Option String
  mcaColNum : Option Int
  mcaChannels : Option Int
  mcaStart : Option Int
  mcaStop : Option Int
deriving DecidableEq, Repr

/-- Read a local variable, raising UnboundLocalError when it was never
assigned. -/
def req (nm : String) : Option α → Except PyErr α
  | some a => .ok a
  | none => .error (.unboundLocal nm)

/-- Byte length of a raw line including its newline terminator. -/
def lineLen (raw : List Char) : Nat := raw.length + 1

/-- Advance the byte cursor past the current line (the statement
self.last_offset plus-equals linelength at the bottom of the loop). -/
def adv (l : LoopSt) (n : Nat) : LoopSt := { l with off := l.off + n }

/-- Build the PalSpecScan constructor arguments, reading the locals in
the order Python evaluates them; the status argument is evaluated
last. -/
def buildScan (l : LoopSt) (doff : Option Nat) (statusE : Except PyErr String) :
    Except PyErr SpecScanRec :=
  match l.scannr with
  | none => .error (.unboundLocal "scannr")
  | some nr =>
  match l.scancmd with
  | none => .error (.unboundLocal "scancmd")
  | some cmd =>
  match l.date with
  | none => .error (.unboundLocal "date")
  | some dt =>
  match l.time with
  | none => .error (.unboundLocal "time")
  | some tm =>
  match l.itime with
  | none => .error (.unboundLocal "itime")
  | some it =>
  match l.colNames with
  | none => .error (.unboundLocal "col_names")
  | some cn =>
  match l.hOffset with
  | none => .error (.unboundLocal "scan_header_offset")
  | some ho =>
  match statusE with
  | .error e => .error e
  | .ok status =>
    .ok { name := "scan_" ++ toString nr, nr := nr, command := cmd, date := dt,
          time := tm, itime := it, colnames := cn, hoffset := ho, doffset := doff,
          fname := l.st.full_filename, init_mopo_names := l.st.init_motor_names,
          init_mopo_values := l.motorVals, scan_status := status, mca := none,
          ischanged := true }

/-- Append a finished record and reset the control flags and the
initial-motor-value accumulator. -/
def appendScan (l : LoopSt) (s : SpecScanRec) : LoopSt :=
  { l with st := { l.st with scan_list := l.st.scan_list ++ [s] },
           started := false, hasMca := false, motorVals := [] }

/-- The scan-start assignments shared by the two scan-header branches:
split the line, convert the scan number, set the control flags, record
the header offset, seed the motor names from the file header. The
fresh-scan branch additionally resets itime and time at its call site;
the consecutive-header branch does not (the source omits those two
assignments there). -/
def startScan (l : LoopSt) (line : List Char) : Except PyErr LoopSt :=
  match (splitWS line).get? 1 with
  | none => .error .indexError
  | some t =>
    match pyInt? t with
    | none => .error .valueError
    | some k =>
      let st2 := { l.st with
                   init_motor_names_sh := ([] : List String),
                   init_motor_names := l.st.init_motor_names_fh }
      .ok { l with started := true, hasMca := false,
                   hOffset := some l.off, scanStatus := some "OK",
                   scannr := some k, st := st2 }

/-- The arms of the elif chain of PalSpecFile.Parse. -/
inductive Branch
  | newhdr | motFh | runIdle | cmd | tim | texp | motSh | val | col
  | mcaFmt | mcaChan | broken | dataln | runScan | other
deriving DecidableEq, Repr

/-- Which arm of the elif chain fires for a stripped line and the
current scan-started flag; the test order reproduces the chain order
of the source exactly, so the first matching guard wins. -/
def classify (started : Bool) (line : List Char) : Branch :=
  if startsWithL line "#E".data then .newhdr
  else if startsWithL line "#MOT".data && !started then .motFh
  else if startsWithL line "#RUN".data && !started then .runIdle
  else if startsWithL line "#CMD".data && started then .cmd
  else if startsWithL line "#TIM".data && started then .tim
  else if startsWithL line "#T".data && started then .texp
  else if startsWithL line "#MOT".data && started then .motSh
  else if startsWithL line "#VAL".data && started then .val
  else if startsWithL line "#COL".data && started then .col
  else if startsWithL line "#@MCA".data && started then .mcaFmt
  else if startsWithL line "#@CHANN".data && started then .mcaChan
  else if scanbrokenContains line && started then .broken
  else if isDataline line && started then .dataln
  else if startsWithL line "#RUN".data && started then .runScan
  else .other

/-- New-file-header marker: reset the file-header motor-name list. -/
def stepNewhdr (l : LoopSt) (n : Nat) : Except PyErr LoopSt :=
  .ok (adv { l with st := { l.st with init_motor_names_fh := [] } } n)

/-- Initial motor names in the file header. -/
def stepMotFh (l : LoopSt) (line : List Char) (n : Nat) : Except PyErr LoopSt :=
  let toks := splitWS2 (pyStrip (removeAllSub "#MOT".data line))
  let st2 := { l.st with
               init_motor_names_fh := l.st.init_motor_names_fh ++ toks.map String.mk }
  .ok (adv { l with st := st2 } n)

/-- Scan-start marker while idle: also initializes itime and time. -/
def stepRunIdle (l : LoopSt) (line : List Char) (n : Nat) : Except PyErr LoopSt :=
  match startScan l line with
  | .error e => .error e
  | .ok l2 => .ok (adv { l2 with itime := some PyFloat.nan, time := some "" } n)

/-- Command declaration. -/
def stepCmd (l : LoopSt) (line : List Char) (n : Nat) : Except PyErr LoopSt :=
  .ok (adv { l with scancmd := some (String.mk (pyStrip (line.drop 4))) } n)

/-- Date and time declaration: the first time occurrence becomes time
(an IndexError if there is none), all time occurrences and the leading
marker are removed, and the rest, blank-normalized and stripped, is
the date. -/
def stepTim (l : LoopSt) (line : List Char) (n : Nat) : Except PyErr LoopSt :=
  match timeFindAll line with
  | [] => .error .indexError
  | t :: _ =>
    let l2 := timeRemoveAll line
    let l3 := dropPrefixIf "#TIM".data l2
    .ok (adv { l with time := some (String.mk t),
                      date := some (String.mk (pyStrip (normBlanks l3))) } n)

/-- Exposure time declaration: float of the first numeric token. -/
def stepTexp (l : LoopSt) (line : List Char) (n : Nat) : Except PyErr LoopSt :=
  match numFindAll line with
  | [] => .error .indexError
  | t :: _ =>
    if pyFloatAccepts t then
      .ok (adv { l with itime := some (PyFloat.ofTok (String.mk (pyStrip t))) } n)
    else .error .valueError

/-- Initial motor names in the scan header. -/
def stepMotSh (l : LoopSt) (line : List Char) (n : Nat) : Except PyErr LoopSt :=
  let toks := (splitWS2 (pyStrip (removeAllSub "#MOT".data line))).map String.mk
  let sh := l.st.init_motor_names_sh ++ toks
  let st2 := { l.st with init_motor_names_sh := sh, init_motor_names := sh }
  .ok (adv { l with st := st2 } n)

/-- Initial motor positions: tokens converted and appended inside one
try-except. -/
def stepVal (l : LoopSt) (line : List Char) (n : Nat) : Except PyErr LoopSt :=
  let toks := splitWS (pyStrip (removeAllSub "#VAL".data line))
  .ok (adv { l with motorVals := appendFloats l.motorVals toks } n)

/-- Column name declaration; the second split is dead code in the
source (the guard compares a length with itself) and is kept as
written. -/
def stepCol (l : LoopSt) (line : List Char) (n : Nat) : Except PyErr LoopSt :=
  let body := pyStrip (dropPrefixIf "#COL".data line)
  let cn := splitWS body
  let nofcols := cn.length
  let cn2 := if cn.length > nofcols then splitWS2 body else cn
  .ok (adv { l with colNames := some (cn2.map String.mk) } n)

/-- MCA format declaration. -/
def stepMcaFmt (l : LoopSt) (line : List Char) (n : Nat) : Except PyErr LoopSt :=
  match numFindAll line with
  | [] => .error .indexError
  | t :: _ =>
    match pyInt? t with
    | none => .error .valueError
    | some v => .ok (adv { l with mcaColNum := some v, hasMca := true } n)

/-- MCA channel declaration: the first three numeric tokens. -/
def stepMcaChan (l : LoopSt) (line : List Char) (n : Nat) : Except PyErr LoopSt :=
  match (numFindAll line).get? 0 with
  | none => .error .indexError
  | some t0 =>
    match pyInt? t0 with
    | none => .error .valueError
    | some ch =>
      match (numFindAll line).get? 1 with
      | none => .error .indexError
      | some t1 =>
        match pyInt? t1 with
        | none => .error .valueError
        | some st1 =>
          match (numFindAll line).get? 2 with
          | none => .error .indexError
          | some t2 =>
            match pyInt? t2 with
            | none => .error .valueError
            | some sp =>
              .ok (adv { l with mcaChannels := some ch, mcaStart := some st1,
                                mcaStop := some sp } n)

/-- Abort marker inside a scan: finalize immediately as NODATA with
the offset of this very line as the data offset. -/
def stepBroken (l : LoopSt) (n : Nat) : Except PyErr LoopSt :=
  match buildScan l (some l.off) (.ok "NODATA") with
  | .error e => .error e
  | .ok s => .ok (adv (appendScan l s) n)

/-- Data row inside a scan: the end-of-header signal; finalize with the
collected header fields, attaching MCA parameters when declared. -/
def stepDataln (l : LoopSt) (n : Nat) : Except PyErr LoopSt :=
  match buildScan l (some l.off) (req "scan_status" l.scanStatus) with
  | .error e => .error e
  | .ok s =>
    if l.hasMca then
      match req "mca_col_number" l.mcaColNum with
      | .error e => .error e
      | .ok a =>
        match req "mca_channels" l.mcaChannels with
        | .error e => .error e
        | .ok b =>
          match req "mca_start" l.mcaStart with
          | .error e => .error e
          | .ok c =>
            match req "mca_stop" l.mcaStop with
            | .error e => .error e
            | .ok d =>
              .ok (adv (appendScan l { s with mca := some ⟨a, b, c, d⟩ }) n)
    else .ok (adv (appendScan l s) n)

/-- Scan-start marker while a scan is open: finalize the pending scan
as NODATA with no data offset, then start the new one (itime and time
are not reset here, matching the source). -/
def stepRunScan (l : LoopSt) (line : List Char) (n : Nat) : Except PyErr LoopSt :=
  match buildScan l none (.ok "NODATA") with
  | .error e => .error e
  | .ok s =>
    match startScan (appendScan l s) line with
    | .error e => .error e
    | .ok l2 => .ok (adv l2 n)

/-- One iteration of the line loop of PalSpecFile.Parse: classify the
stripped line against the elif chain and run the matching arm. -/
def parseStep (l : LoopSt) (raw : List Char) : Except PyErr LoopSt :=
  match classify l.started (pyStrip raw) with
  | .newhdr => stepNewhdr l (lineLen raw)
  | .motFh => stepMotFh l (pyStrip raw) (lineLen raw)
  | .runIdle => stepRunIdle l (pyStrip raw) (lineLen raw)
  | .cmd => stepCmd l (pyStrip raw) (lineLen raw)
  | .tim => stepTim l (pyStrip raw) (lineLen raw)
  | .texp => stepTexp l (pyStrip raw) (lineLen raw)
  | .motSh => stepMotSh l (pyStrip raw) (lineLen raw)
  | .val => stepVal l (pyStrip raw) (lineLen raw)
  | .col => stepCol l (pyStrip raw) (lineLen raw)
  | .mcaFmt => stepMcaFmt l (pyStrip raw) (lineLen raw)
  | .mcaChan => stepMcaChan l (pyStrip raw) (lineLen raw)
  | .broken => stepBroken l (lineLen raw)
  | .dataln => stepDataln l (lineLen raw)
  | .runScan => stepRunScan l (pyStrip raw) (lineLen raw)
  | .other => .ok (adv l (lineLen raw))

/-- The line loop of Parse over a list of raw lines. -/
def parseLines : LoopSt → List (List Char) → Except PyErr LoopSt
  | l, [] => .ok l
  | l, raw :: rest =>
    match parseStep l raw with
    | .error e => .error e
    | .ok l1 => parseLines l1 rest

/-- The lines an iterator over the file yields after seeking to a byte
offset: whole lines are skipped while the offset exceeds them, and a
seek landing inside a line yields the remainder of that line first. -/
def linesFrom : List (List Char) → Nat → List (List Char)
  | ls, 0 => ls
  | [], _ => []
  | r :: ls, o =>
    if o < lineLen r then r.drop o :: ls else linesFrom ls (o - lineLen r)

/-- Fresh local state at the start of a Parse call, with the byte
cursor at the seek offset. -/
def initLoop (st : PalState) (o : Nat) : LoopSt :=
  { st := st, off := o, started := false, hasMca := false, motorVals := [],
    scannr := none, scancmd := none, date := none, time := none, itime := none,
    colNames := none, hOffset := none, scanStatus := none, mcaColNum := none,
    mcaChannels := none, mcaStart := none, mcaStop := none }

/-- PalSpecFile.Parse on the contents of self.full_filename: seek to
self.last_offset (a None offset is a TypeError), run the line loop,
then store the data offset of the last element of the scan list as the
next offset (an empty scan list is an IndexError). -/
def ParseFile (st : PalState) (file : List (List Char)) : Except PyErr PalState :=
  match st.last_offset with
  | none => .error .typeError
  | some o =>
    match parseLines (initLoop st o) (linesFrom file o) with
    | .error e => .error e
    | .ok e =>
      match e.st.scan_list.getLast? with
      | none => .error .indexError
      | some s => .ok { e.st with last_offset := s.doffset }

/-- File name produced by the path template, a seven-digit zero-padded
scan number followed by the fixed suffix. -/
def zeroPad7 (n : Int) : String :=
  if n < 0 then
    let s := toString (-n)
    "-" ++ String.mk (List.replicate (6 - s.length) '0') ++ s
  else
    let s := toString n
    String.mk (List.replicate (7 - s.length) '0') ++ s

def fileNameFor (n : Int) : String := zeroPad7 n ++ "_meta.log"

/-- A folder: file contents looked up by file name. -/
def FileSys := String → Option (List (List Char))

/-- The sequential branch of parse_folders: probe the cursor, parse an
existing file from a zero offset, advance the cursor, stop at the
first missing file. The fuel bounds the unbounded while loop; the
returned list records which scan numbers were parsed, and the flag is
true when the loop exited at a missing file rather than by fuel. -/
def seqLoop (fs : FileSys) : Nat → PalState → List Int →
    Except PyErr (PalState × List Int × Bool)
  | 0, st, tr => .ok (st, tr, false)
  | fuel + 1, st, tr =>
    let nb := st.curr_scan_nb
    match fs (fileNameFor nb) with
    | some content =>
      let st1 := { st with full_filename := fileNameFor nb }
      match ParseFile st1 content with
      | .error e => .error e
      | .ok st2 =>
        seqLoop fs fuel
          { st2 with last_offset := some 0, curr_scan_nb := st2.curr_scan_nb + 1 }
          (tr ++ [nb])
    | none => .ok (st, tr, true)

/-- The explicit-list branch of parse_folders: numbers below the cursor
are skipped, numbers at or above it move the cursor and are probed; a
missing probed file breaks the loop. -/
def listLoop (fs : FileSys) : PalState → List Int → List Int →
    Except PyErr (PalState × List Int × Bool)
  | st, [], tr => .ok (st, tr, true)
  | st, nb :: rest, tr =>
    if nb ≥ st.curr_scan_nb then
      let st0 := { st with curr_scan_nb := nb }
      match fs (fileNameFor nb) with
      | some content =>
        let st1 := { st0 with full_filename := fileNameFor nb }
        match ParseFile st1 content with
        | .error e => .error e
        | .ok st2 =>
          listLoop fs { st2 with last_offset := some 0 } rest (tr ++ [nb])
      | none => .ok (st0, tr, true)
    else
      listLoop fs st rest tr

/-- PalSpecFile.parse_folders: the explicit-list branch when a scan
list was configured, the sequential branch otherwise. -/
def parse_folders (fs : FileSys) (fuel : Nat) (st : PalState) :
    Except PyErr (PalState × List Int × Bool) :=
  if st.scan_in_list.length ≠ 0 then listLoop fs st st.scan_in_list []
  else seqLoop fs fuel st []

/-- Mark the last element of the scan list as changed, as Update does
before reparsing. -/
def markLast (ls : List SpecScanRec) : List SpecScanRec :=
  match ls.getLast? with
  | none => ls
  | some s => ls.dropLast ++ [{ s with ischanged := true }]

/-- PalSpecFile.Update: set ischanged on the last gathered scan when
one exists, then run parse_folders again. -/
def Update (fs : FileSys) (fuel : Nat) (st : PalState) :
    Except PyErr (PalState × List Int × Bool) :=
  let st1 := if st.scan_list.length > 0 then { st with scan_list := markLast st.scan_list }
             else st
  parse_folders fs fuel st1

/-- Fresh PalSpecFile state as built by the constructor, before the
initial parse_folders call. -/
def initState (scanInList : List Int) (startScanNb : Int) : PalState :=
  { scan_list := [], last_offset := some 0, scan_in_list := scanInList,
    curr_scan_nb := match scanInList with | nb :: _ => nb | [] => startScanNb,
    init_motor_names_fh := [], init_motor_names_sh := [], init_motor_names := [],
    full_filename := "" }

/-- Names bound at module scope in palxfel.py: the import statements
(os, SPECFile, SPECScan, xu_open, config, re, np, Spec), the class and
regex definitions, and the status-flag list. numpy is imported only
under the name np; the import numpy statement inside Parse binds a
function-local name. -/
def moduleGlobalNames : List String :=
  ["os", "SPECFile", "SPECScan", "xu_open", "config", "re", "np", "Spec",
   "PalSpecScan", "PalSpec", "SPEC_time_format", "SPEC_multi_blank",
   "SPEC_multi_blank2", "SPEC_int_value", "SPEC_num_value", "SPEC_dataline",
   "SPEC_scan", "SPEC_cmd", "SPEC_initmoponames", "SPEC_initmopopos",
   "SPEC_datetime", "SPEC_exptime", "SPEC_nofcols", "SPEC_colnames",
   "SPEC_MCAFormat", "SPEC_MCAChannels", "SPEC_headerline", "SPEC_scanbroken",
   "SPEC_scanresumed", "SPEC_commentline", "SPEC_newheader", "SPEC_errorbm20",
   "scan_status_flags", "PalSpecFile"]

def moduleBinds (nm : String) : Bool := moduleGlobalNames.contains nm

/-- One assembled data row of ReadData: the scalar fields of a line and
the optional MCA spectrum attached to it. -/
structure RowRec where
  scalars : List PyFloat
  mcaData : Option (List Int)
deriving DecidableEq, Repr

/-- Arity of a row as a Python tuple (the MCA list counts as one
field). -/
def rowArity (r : RowRec) : Nat :=
  r.scalars.length + (match r.mcaData with | some _ => 1 | none => 0)

/-- Number of lines one MCA spectrum occupies, as computed by the
SetMCAParams of the SPECScan base class of xrayutilities: the ceiling
of channels over the column format. Modelled from that external
collaborator; it is only reached through dead code here. -/
def mcaNofLines (p : MCAParams) : Int :=
  (p.channels + p.colFormat - 1) / p.colFormat

/-- State of the row-assembly loop of ReadData. -/
structure ReadSt where
  recs : List RowRec
  mcaCounter : Int
  mcaTmp : List Int
  pending : List (List Char)
  abortedFlag : Bool
  status : String
deriving DecidableEq, Repr

/-- Convert the scalar tokens of a data line with float(), as the
deferred map object is materialized; a malformed token raises
ValueError here, uncaught. -/
def convFloats : List (List Char) → Except PyErr (List PyFloat)
  | [] => .ok []
  | t :: ts =>
    if pyFloatAccepts t then
      match convFloats ts with
      | .error e => .error e
      | .ok vs => .ok (PyFloat.ofTok (String.mk (pyStrip t)) :: vs)
    else .error .valueError

/-- The for loop of ReadData over the data block (lines 90 to 160 of
the source): abort and resume markers, comment and header lines, and
the scalar and MCA line assembly. -/
def readLoop (s : SpecScanRec) : ReadSt → List (List Char) → Except PyErr ReadSt
  | r, [] => .ok r
  | r, raw :: rest =>
    let line := pyStrip raw
    if line = [] then readLoop s r rest
    else if scanbrokenContains line || r.abortedFlag then
      if !r.abortedFlag then
        readLoop s { r with abortedFlag := true, status := "ABORTED" } rest
      else if scanresumedMatch line then
        readLoop s { r with abortedFlag := false, status := "OK" } rest
      else if startsWithL line "#ATT".data then readLoop s r rest
      else if startsWithL line "MI:".data then readLoop s r rest
      else .ok r
    else if startsWithL line "#".data || startsWithL line "#ATT".data then
      if scanresumedMatch line then readLoop s r rest
      else if startsWithL line "#ATT".data then readLoop s r rest
      else .ok r
    else if r.mcaCounter = 0 then
      let toks := numFindAll line
      if s.mca.isSome then
        readLoop s { r with mcaCounter := 1, mcaTmp := [], pending := toks } rest
      else
        match convFloats toks with
        | .error e => .error e
        | .ok vs =>
          readLoop s { r with recs := r.recs ++ [⟨vs, none⟩] } rest
    else
      let ints := (intFindAll line).filterMap (fun t => pyInt? t)
      let tmp := r.mcaTmp ++ ints
      let cnt := r.mcaCounter + 1
      match s.mca with
      | none => .error (.unboundLocal "mca_nof_lines")
      | some p =>
        if cnt > mcaNofLines p then
          match convFloats r.pending with
          | .error e => .error e
          | .ok vs =>
            readLoop s { r with recs := r.recs ++ [⟨vs, some tmp⟩],
                                mcaCounter := 0, mcaTmp := tmp } rest
        else
          readLoop s { r with mcaCounter := cnt, mcaTmp := tmp } rest

/-- Does numpy.rec.fromrecords succeed on the record list for the given
dtype? Modelled from the external numpy collaborator: it raises
ValueError when some record has the wrong arity or an array field of
the wrong length. -/
def fromrecordsOk (recs : List RowRec) (nfields : Nat) (channels : Int) : Bool :=
  recs.all (fun r =>
    rowArity r = nfields &&
    (match r.mcaData with
     | some m => (m.length : Int) = channels
     | none => true))

/-- Column names of the dtype descriptor: the scan columns plus one MCA
column when the scan has MCA data. -/
def typeDescNames (s : SpecScanRec) : List String :=
  if s.mca.isSome then s.colnames ++ ["MCA"] else s.colnames

/-- PalSpecScan.ReadData: the NODATA early return, the header re-read,
the dtype-descriptor construction (which evaluates the module-global
name numpy), the row-assembly loop, and the final arity check and
record-array conversion with its NODATA demotion. The result is the
final scan_status together with the data attribute. -/
def ReadData (s : SpecScanRec) (file : List (List Char)) :
    Except PyErr (String × Option (List RowRec)) :=
  if s.scan_status = "NODATA" then .ok (s.scan_status, none)
  else
    match s.doffset with
    | none => .error .typeError
    | some d =>
      if moduleBinds "numpy" then
        match readLoop s ⟨[], 0, [], [], false, s.scan_status⟩ (linesFrom file d) with
        | .error e => .error e
        | .ok r =>
          match r.recs.head? with
          | none => .error .indexError
          | some r0 =>
            let names := typeDescNames s
            if rowArity r0 = names.length then
              if fromrecordsOk r.recs names.length
                  (match s.mca with | some p => p.channels | none => 0) then
                .ok (r.status, some r.recs)
              else .ok ("NODATA", none)
            else .ok ("NODATA", none)
      else .error (.nameError "numpy")

/-- Shorthand for writing concrete file lines. -/
def Ln (s : String) : List Char := s.data

/-- A minimal complete log: one scan header followed by one data row
(the data row sits at byte offset 39). -/
def fileA : List (List Char) :=
  [Ln "#RUN 1", Ln "#CMD c", Ln "#TIM x 12:00:00", Ln "#COL a b", Ln "1.0 2.0"]

/-- fileA after the producer appended a second complete scan. -/
def fileExt : List (List Char) :=
  fileA ++ [Ln "#RUN 2", Ln "#CMD c2", Ln "#TIM x 13:00:00", Ln "#COL a b", Ln "3.0 4.0"]

/-- A folder holding only the file of scan 1 with content fileA. -/
def fsOne : FileSys := fun nm => if nm = fileNameFor 1 then some fileA else none

/-- The same folder after more data was appended to the file of scan 1. -/
def fsOneExt : FileSys := fun nm => if nm = fileNameFor 1 then some fileExt else none

/-- A folder holding the files of scans 1 through 5 and nothing else. -/
def fsSeq : FileSys := fun nm =>
  if nm = fileNameFor 1 ∨ nm = fileNameFor 2 ∨ nm = fileNameFor 3 ∨
     nm = fileNameFor 4 ∨ nm = fileNameFor 5 then some fileA else none

/-- An empty folder. -/
def fsNone : FileSys := fun _ => none

/-- A fresh file object about to parse a single named file. -/
def stFresh : PalState := { initState [] 1 with full_filename := "f" }

/-- Decidable equality of run results, for checking concrete runs. -/
instance {a b : Type} [DecidableEq a] [DecidableEq b] : DecidableEq (Except a b) := fun x y =>
  match x, y with
  | .ok u, .ok v =>
    if h : u = v then .isTrue (by rw [h]) else .isFalse (fun c => h (Except.ok.inj c))
  | .ok _, .error _ => .isFalse (fun c => Except.noConfusion c)
  | .error _, .ok _ => .isFalse (fun c => Except.noConfusion c)
  | .error u, .error v =>
    if h : u = v then .isTrue (by rw [h]) else .isFalse (fun c => h (Except.error.inj c))

/-- A scan aborted right after its header (the abort line sits at byte
offset 39). -/
def fileAbort : List (List Char) :=
  [Ln "#RUN 1", Ln "#CMD c", Ln "#TIM x 12:00:00", Ln "#COL a b", Ln "#C Scan aborted"]

/-- A scan aborted twice with nothing in between. -/
def fileAbort2 : List (List Char) := fileAbort ++ [Ln "#C Scan aborted"]

/-- Two scan headers back to back; the stream ends while the second
scan is open. -/
def fileHdr2 : List (List Char) :=
  [Ln "#RUN 1", Ln "#CMD c", Ln "#TIM a 12:00:00", Ln "#COL x y", Ln "#RUN 2"]

/-- A file with no recognizable marker at all. -/
def fileJunk : List (List Char) := [Ln "hello world"]

/-- The single record produced by parsing fileA from a fresh state. -/
def recA : SpecScanRec :=
  { name := "scan_1", nr := 1, command := "c", date := "x", time := "12:00:00",
    itime := PyFloat.nan, colnames := ["a", "b"], hoffset := 0,
    doffset := some 39, fname := "f", init_mopo_names := [],
    init_mopo_values := [], scan_status := "OK", mca := none, ischanged := true }

/-- The state after ParseFile stFresh fileA, checked by kernel
evaluation in the proofs below. -/
def stA1 : PalState :=
  { scan_list := [recA], last_offset := some 39, scan_in_list := [],
    curr_scan_nb := 1, init_motor_names_fh := [], init_motor_names_sh := [],
    init_motor_names := [], full_filename := "f" }

/-- An OK scan without MCA data whose file holds a one-field data row
against a two-column schema. -/
def recC7 : SpecScanRec :=
  { name := "scan_1", nr := 1, command := "c", date := "x", time := "12:00:00",
    itime := PyFloat.nan, colnames := ["a", "b"], hoffset := 0,
    doffset := some 0, fname := "f", init_mopo_names := [],
    init_mopo_values := [], scan_status := "OK", mca := none, ischanged := true }

/-- The data block of recC7: a single undersized row. -/
def fileC7 : List (List Char) := [Ln "1.0"]

/-- An OK scan with declared MCA parameters. -/
def recC9 : SpecScanRec :=
  { name := "scan_2", nr := 2, command := "c", date := "x", time := "12:00:00",
    itime := PyFloat.nan, colnames := ["a", "b"], hoffset := 0,
    doffset := some 0, fname := "f", init_mopo_names := [],
    init_mopo_values := [], scan_status := "OK",
    mca := some { colFormat := 1, channels := 4, startCh := 0, stopCh := 3 },
    ischanged := true }

/-- The data block of recC9: a scalar row and one MCA line. -/
def fileC9 : List (List Char) := [Ln "1.0 2.0", Ln "0 1 2 3"]

/-- A loop state inside an open scan, as needed by the motor-position
branch. -/
def lVal : LoopSt := { initLoop stFresh 0 with started := true }

/-- A loop state inside an open scan with every header local bound and
the cursor at byte 39. -/
def lAbort : LoopSt :=
  { initLoop stFresh 0 with
    off := 39, started := true, scannr := some 1,
    scancmd := some "c", date := some "x", time := some "12:00:00",
    itime := some PyFloat.nan, colNames := some ["a", "b"], hOffset := some 0,
    scanStatus := some "OK" }

/-! ## Structural lemmas about the parsing step -/

/-- A successful PalSpecScan construction copies the data offset given
to it, has no MCA parameters yet, and carries the status the
constructor received. -/
theorem buildScan_ok {l : LoopSt} {doff : Option Nat} {statusE : Except PyErr String}
    {s : SpecScanRec} (h : buildScan l doff statusE = .ok s) :
    s.doffset = doff ∧ s.mca = none ∧ statusE = .ok s.scan_status := by
  unfold buildScan at h
  repeat' split at h
  all_goals try exact Except.noConfusion h
  all_goals injection h with h2
  all_goals subst h2
  all_goals exact ⟨rfl, rfl, rfl⟩

/-- A successful startScan sets the started flag, keeps the byte
cursor, the scan list and the discovery bookkeeping, and records the
current offset as the header offset. -/
theorem startScan_ok {l : LoopSt} {line : List Char} {l2 : LoopSt}
    (h : startScan l line = .ok l2) :
    l2.off = l.off ∧ l2.st.scan_list = l.st.scan_list ∧
    l2.st.curr_scan_nb = l.st.curr_scan_nb ∧
    l2.st.scan_in_list = l.st.scan_in_list ∧
    l2.st.last_offset = l.st.last_offset ∧
    l2.st.full_filename = l.st.full_filename ∧
    l2.started = true := by
  unfold startScan at h
  repeat' split at h
  all_goals try exact Except.noConfusion h
  all_goals injection h with h2
  all_goals subst h2
  all_goals exact ⟨rfl, rfl, rfl, rfl, rfl, rfl, rfl⟩

/-- Dispatch equation of parseStep for the newhdr arm. -/
theorem parseStep_eq_newhdr {l : LoopSt} {raw : List Char}
    (hc : classify l.started (pyStrip raw) = .newhdr) :
    parseStep l raw = stepNewhdr l (lineLen raw) := by
  unfold parseStep; rw [hc]

/-- Dispatch equation of parseStep for the motFh arm. -/
theorem parseStep_eq_motFh {l : LoopSt} {raw : List Char}
    (hc : classify l.started (pyStrip raw) = .motFh) :
    parseStep l raw = stepMotFh l (pyStrip raw) (lineLen raw) := by
  unfold parseStep; rw [hc]

/-- Dispatch equation of parseStep for the runIdle arm. -/
theorem parseStep_eq_runIdle {l : LoopSt} {raw : List Char}
    (hc : classify l.started (pyStrip raw) = .runIdle) :
    parseStep l raw = stepRunIdle l (pyStrip raw) (lineLen raw) := by
  unfold parseStep; rw [hc]

/-- Dispatch equation of parseStep for the cmd arm. -/
theorem parseStep_eq_cmd {l : LoopSt} {raw : List Char}
    (hc : classify l.started (pyStrip raw) = .cmd) :
    parseStep l raw = stepCmd l (pyStrip raw) (lineLen raw) := by
  unfold parseStep; rw [hc]

/-- Dispatch equation of parseStep for the tim arm. -/
theorem parseStep_eq_tim {l : LoopSt} {raw : List Char}
    (hc : classify l.started (pyStrip raw) = .tim) :
    parseStep l raw = stepTim l (pyStrip raw) (lineLen raw) := by
  unfold parseStep; rw [hc]

/-- Dispatch equation of parseStep for the texp arm. -/
theorem parseStep_eq_texp {l : LoopSt} {raw : List Char}
    (hc : classify l.started (pyStrip raw) = .texp) :
    parseStep l raw = stepTexp l (pyStrip raw) (lineLen raw) := by
  unfold parseStep; rw [hc]

/-- Dispatch equation of parseStep for the motSh arm. -/
theorem parseStep_eq_motSh {l : LoopSt} {raw : List Char}
    (hc : classify l.started (pyStrip raw) = .motSh) :
    parseStep l raw = stepMotSh l (pyStrip raw) (lineLen raw) := by
  unfold parseStep; rw [hc]

/-- Dispatch equation of parseStep for the val arm. -/
theorem parseStep_eq_val {l : LoopSt} {raw : List Char}
    (hc : classify l.started (pyStrip raw) = .val) :
    parseStep l raw = stepVal l (pyStrip raw) (lineLen raw) := by
  unfold parseStep; rw [hc]

/-- Dispatch equation of parseStep for the col arm. -/
theorem parseStep_eq_col {l : LoopSt} {raw : List Char}
    (hc : classify l.started (pyStrip raw) = .col) :
    parseStep l raw = stepCol l (pyStrip raw) (lineLen raw) := by
  unfold parseStep; rw [hc]

/-- Dispatch equation of parseStep for the mcaFmt arm. -/
theorem parseStep_eq_mcaFmt {l : LoopSt} {raw : List Char}
    (hc : classify l.started (pyStrip raw) = .mcaFmt) :
    parseStep l raw = stepMcaFmt l (pyStrip raw) (lineLen raw) := by
  unfold parseStep; rw [hc]

/-- Dispatch equation of parseStep for the mcaChan arm. -/
theorem parseStep_eq_mcaChan {l : LoopSt} {raw : List Char}
    (hc : classify l.started (pyStrip raw) = .mcaChan) :
    parseStep l raw = stepMcaChan l (pyStrip raw) (lineLen raw) := by
  unfold parseStep; rw [hc]

/-- Dispatch equation of parseStep for the broken arm. -/
theorem parseStep_eq_broken {l : LoopSt} {raw : List Char}
    (hc : classify l.started (pyStrip raw) = .broken) :
    parseStep l raw = stepBroken l (lineLen raw) := by
  unfold parseStep; rw [hc]

/-- Dispatch equation of parseStep for the dataln arm. -/
theorem parseStep_eq_dataln {l : LoopSt} {raw : List Char}
    (hc : classify l.started (pyStrip raw) = .dataln) :
    parseStep l raw = stepDataln l (lineLen raw) := by
  unfold parseStep; rw [hc]

/-- Dispatch equation of parseStep for the runScan arm. -/
theorem parseStep_eq_runScan {l : LoopSt} {raw : List Char}
    (hc : classify l.started (pyStrip raw) = .runScan) :
    parseStep l raw = stepRunScan l (pyStrip raw) (lineLen raw) := by
  unfold parseStep; rw [hc]

/-- Dispatch equation of parseStep for the other arm. -/
theorem parseStep_eq_other {l : LoopSt} {raw : List Char}
    (hc : classify l.started (pyStrip raw) = .other) :
    parseStep l raw = Except.ok (adv l (lineLen raw)) := by
  unfold parseStep; rw [hc]

/-- A successful parsing step advances the byte cursor by the encoded
line length and never touches the discovery bookkeeping, the stored
resume offset, or the current file name. -/
theorem parseStep_pres {l : LoopSt} {raw : List Char} {l1 : LoopSt}
    (h : parseStep l raw = .ok l1) :
    l1.off = l.off + lineLen raw ∧
    l1.st.curr_scan_nb = l.st.curr_scan_nb ∧
    l1.st.scan_in_list = l.st.scan_in_list ∧
    l1.st.last_offset = l.st.last_offset ∧
    l1.st.full_filename = l.st.full_filename := by
  unfold parseStep at h
  cases hc : classify l.started (pyStrip raw) <;> rw [hc] at h <;>
    try simp only [stepNewhdr, stepMotFh, stepRunIdle, stepCmd, stepTim, stepTexp,
      stepMotSh, stepVal, stepCol, stepMcaFmt, stepMcaChan, stepBroken,
      stepDataln, stepRunScan] at h
  all_goals repeat' split at h
  all_goals try exact Except.noConfusion h
  all_goals injection h with h2
  all_goals subst h2
  all_goals try exact ⟨rfl, rfl, rfl, rfl, rfl⟩
  all_goals rename_i l2 heq
  all_goals obtain ⟨e1, e2, e3, e4, e5, e6, e7⟩ := startScan_ok heq
  all_goals refine ⟨?_, ?_, ?_, ?_, ?_⟩ <;> simp [adv, appendScan, e1, e2, e3, e4, e5, e6]

/-- The abort-marker arm appends exactly one record: status NODATA,
data offset equal to the offset of the abort line, no MCA parameters,
and the step returns to the idle state. -/
theorem stepBroken_fact {l : LoopSt} {n : Nat} {l1 : LoopSt}
    (h : stepBroken l n = .ok l1) :
    ∃ s, l1 = adv (appendScan l s) n ∧ s.doffset = some l.off ∧
      s.scan_status = "NODATA" ∧ s.mca = none := by
  unfold stepBroken at h
  split at h
  · exact Except.noConfusion h
  · rename_i s heq
    injection h with h2
    subst h2
    obtain ⟨d1, d2, d3⟩ := buildScan_ok heq
    injection d3 with d3
    exact ⟨s, rfl, d1, d3.symm, d2⟩

/-- The data-row arm appends exactly one record whose data offset is
the offset of the data line. -/
theorem stepDataln_fact {l : LoopSt} {n : Nat} {l1 : LoopSt}
    (h : stepDataln l n = .ok l1) :
    ∃ s, l1 = adv (appendScan l s) n ∧ s.doffset = some l.off := by
  unfold stepDataln at h
  split at h
  · exact Except.noConfusion h
  · rename_i s heq
    obtain ⟨d1, d2, d3⟩ := buildScan_ok heq
    split at h
    · repeat' split at h
      all_goals try exact Except.noConfusion h
      all_goals injection h with h2
      all_goals subst h2
      all_goals exact ⟨_, rfl, d1⟩
    · injection h with h2
      subst h2
      exact ⟨s, rfl, d1⟩

/-- The consecutive-scan-header arm appends exactly one record with an
absent data offset and immediately opens the next scan. -/
theorem stepRunScan_fact {l : LoopSt} {line : List Char} {n : Nat} {l1 : LoopSt}
    (h : stepRunScan l line n = .ok l1) :
    ∃ s, l1.st.scan_list = l.st.scan_list ++ [s] ∧ s.doffset = none ∧
      l1.started = true ∧ l1.off = l.off + n ∧ s.scan_status = "NODATA" := by
  unfold stepRunScan at h
  split at h
  · exact Except.noConfusion h
  · rename_i s heq
    obtain ⟨d1, d2, d3⟩ := buildScan_ok heq
    split at h
    · exact Except.noConfusion h
    · rename_i l2 heq2
      injection h with h2
      subst h2
      obtain ⟨e1, e2, e3, e4, e5, e6, e7⟩ := startScan_ok heq2
      injection d3 with d3
      refine ⟨s, ?_, d1, e7, ?_, d3.symm⟩
      · rw [show (adv l2 n).st.scan_list = l2.st.scan_list from rfl, e2]
        rfl
      · rw [show (adv l2 n).off = l2.off + n from rfl, e1]
        rfl

/-- A successful parsing step leaves the scan list unchanged or appends
exactly one record, whose data offset is either absent or the offset
of the line that finalized it. -/
theorem parseStep_scanlist {l : LoopSt} {raw : List Char} {l1 : LoopSt}
    (h : parseStep l raw = .ok l1) :
    l1.st.scan_list = l.st.scan_list ∨
    ∃ s, l1.st.scan_list = l.st.scan_list ++ [s] ∧
      (s.doffset = none ∨ s.doffset = some l.off) := by
  cases hc : classify l.started (pyStrip raw)
  case broken =>
    rw [parseStep_eq_broken hc] at h
    obtain ⟨s, e1, e2, _, _⟩ := stepBroken_fact h
    subst e1
    exact Or.inr ⟨s, rfl, Or.inr e2⟩
  case dataln =>
    rw [parseStep_eq_dataln hc] at h
    obtain ⟨s, e1, e2⟩ := stepDataln_fact h
    subst e1
    exact Or.inr ⟨s, rfl, Or.inr e2⟩
  case runScan =>
    rw [parseStep_eq_runScan hc] at h
    obtain ⟨s, e1, e2, _, _, _⟩ := stepRunScan_fact h
    exact Or.inr ⟨s, e1, Or.inl e2⟩
  case runIdle =>
    rw [parseStep_eq_runIdle hc] at h
    unfold stepRunIdle at h
    split at h
    · exact Except.noConfusion h
    · rename_i l2 heq
      injection h with h2
      subst h2
      obtain ⟨e1, e2, e3, e4, e5, e6, e7⟩ := startScan_ok heq
      exact Or.inl e2
  all_goals first
    | rw [parseStep_eq_newhdr hc] at h
    | rw [parseStep_eq_motFh hc] at h
    | rw [parseStep_eq_cmd hc] at h
    | rw [parseStep_eq_tim hc] at h
    | rw [parseStep_eq_texp hc] at h
    | rw [parseStep_eq_motSh hc] at h
    | rw [parseStep_eq_val hc] at h
    | rw [parseStep_eq_col hc] at h
    | rw [parseStep_eq_mcaFmt hc] at h
    | rw [parseStep_eq_mcaChan hc] at h
    | rw [parseStep_eq_other hc] at h
  all_goals
    try simp only [stepNewhdr, stepMotFh, stepCmd, stepTim, stepTexp,
      stepMotSh, stepVal, stepCol, stepMcaFmt, stepMcaChan] at h
  all_goals repeat' split at h
  all_goals try exact Except.noConfusion h
  all_goals injection h with h2
  all_goals subst h2
  all_goals exact Or.inl rfl

/-! ## Run-level lemmas about the line loop -/

/-- Total encoded byte length of a list of raw lines. -/
def totalLen (L : List (List Char)) : Nat := (L.map lineLen).sum

theorem parseLines_pres {a e : LoopSt} :
    ∀ {L : List (List Char)}, parseLines a L = .ok e →
    e.off = a.off + totalLen L ∧
    e.st.curr_scan_nb = a.st.curr_scan_nb ∧
    e.st.scan_in_list = a.st.scan_in_list ∧
    e.st.last_offset = a.st.last_offset ∧
    e.st.full_filename = a.st.full_filename := by
  intro L
  induction L generalizing a with
  | nil =>
    intro h
    injection h with h2
    subst h2
    simp [totalLen]
  | cons x R ih =>
    intro h
    unfold parseLines at h
    split at h
    · exact Except.noConfusion h
    · rename_i a1 hstep
      obtain ⟨p1, p2, p3, p4, p5⟩ := parseStep_pres hstep
      obtain ⟨q1, q2, q3, q4, q5⟩ := ih h
      refine ⟨?_, by rw [q2, p2], by rw [q3, p3], by rw [q4, p4], by rw [q5, p5]⟩
      rw [q1, p1]
      simp [totalLen]
      omega

/-- The line loop only appends records, and each appended record with a
present data offset got it from a position at or past the starting
cursor. -/
theorem parseLines_append {a e : LoopSt} :
    ∀ {L : List (List Char)}, parseLines a L = .ok e →
    ∃ D, e.st.scan_list = a.st.scan_list ++ D ∧
      ∀ s ∈ D, ∀ dd, s.doffset = some dd → a.off ≤ dd := by
  intro L
  induction L generalizing a with
  | nil =>
    intro h
    injection h with h2
    subst h2
    exact ⟨[], by simp⟩
  | cons x R ih =>
    intro h
    unfold parseLines at h
    split at h
    · exact Except.noConfusion h
    · rename_i a1 hstep
      obtain ⟨p1, _, _, _, _⟩ := parseStep_pres hstep
      obtain ⟨D, hD, hbound⟩ := ih h
      rcases parseStep_scanlist hstep with hsame | ⟨s, happ, hdof⟩
      · refine ⟨D, by rw [hD, hsame], ?_⟩
        intro t ht dd hdd
        have := hbound t ht dd hdd
        omega
      · refine ⟨s :: D, by rw [hD, happ]; simp, ?_⟩
        intro t ht dd hdd
        rcases List.mem_cons.mp ht with rfl | ht2
        · rcases hdof with hn | hs
          · rw [hn] at hdd; exact Option.noConfusion hdd
          · rw [hs] at hdd; injection hdd with hdd; omega
        · have := hbound t ht2 dd hdd
          omega

/-- The scan-start assignments succeed or fail depending only on the
line, so they replay from any other loop state. -/
theorem startScan_sim {a : LoopSt} {line : List Char} {a2 : LoopSt}
    (h : startScan a line = .ok a2) (b : LoopSt) :
    ∃ b2, startScan b line = .ok b2 ∧ b2.started = true ∧ b2.off = b.off ∧
      b2.st.scan_list = b.st.scan_list := by
  unfold startScan at h ⊢
  split at h
  · exact Except.noConfusion h
  · rename_i t heq
    split at h
    · exact Except.noConfusion h
    · rename_i k heq2
      exact ⟨_, rfl, rfl, rfl, rfl⟩

/-- Total arms of the chain replay from any state; each of the
following sim lemmas states that the success, the started flag, the
cursor advance and the scan list of an arm depend only on the line. -/
theorem stepNewhdr_sim {a : LoopSt} {n : Nat} {a1 : LoopSt}
    (h : stepNewhdr a n = .ok a1) (b : LoopSt) :
    ∃ b1, stepNewhdr b n = .ok b1 ∧ b1.started = b.started ∧
      b1.off = b.off + n ∧ b1.st.scan_list = b.st.scan_list :=
  ⟨_, rfl, rfl, rfl, rfl⟩

theorem stepMotFh_sim {a : LoopSt} {line : List Char} {n : Nat} {a1 : LoopSt}
    (h : stepMotFh a line n = .ok a1) (b : LoopSt) :
    ∃ b1, stepMotFh b line n = .ok b1 ∧ b1.started = b.started ∧
      b1.off = b.off + n ∧ b1.st.scan_list = b.st.scan_list :=
  ⟨_, rfl, rfl, rfl, rfl⟩

theorem stepCmd_sim {a : LoopSt} {line : List Char} {n : Nat} {a1 : LoopSt}
    (h : stepCmd a line n = .ok a1) (b : LoopSt) :
    ∃ b1, stepCmd b line n = .ok b1 ∧ b1.started = b.started ∧
      b1.off = b.off + n ∧ b1.st.scan_list = b.st.scan_list :=
  ⟨_, rfl, rfl, rfl, rfl⟩

theorem stepMotSh_sim {a : LoopSt} {line : List Char} {n : Nat} {a1 : LoopSt}
    (h : stepMotSh a line n = .ok a1) (b : LoopSt) :
    ∃ b1, stepMotSh b line n = .ok b1 ∧ b1.started = b.started ∧
      b1.off = b.off + n ∧ b1.st.scan_list = b.st.scan_list :=
  ⟨_, rfl, rfl, rfl, rfl⟩

theorem stepVal_sim {a : LoopSt} {line : List Char} {n : Nat} {a1 : LoopSt}
    (h : stepVal a line n = .ok a1) (b : LoopSt) :
    ∃ b1, stepVal b line n = .ok b1 ∧ b1.started = b.started ∧
      b1.off = b.off + n ∧ b1.st.scan_list = b.st.scan_list :=
  ⟨_, rfl, rfl, rfl, rfl⟩

theorem stepCol_sim {a : LoopSt} {line : List Char} {n : Nat} {a1 : LoopSt}
    (h : stepCol a line n = .ok a1) (b : LoopSt) :
    ∃ b1, stepCol b line n = .ok b1 ∧ b1.started = b.started ∧
      b1.off = b.off + n ∧ b1.st.scan_list = b.st.scan_list :=
  ⟨_, rfl, rfl, rfl, rfl⟩

theorem stepTim_sim {a : LoopSt} {line : List Char} {n : Nat} {a1 : LoopSt}
    (h : stepTim a line n = .ok a1) (b : LoopSt) :
    ∃ b1, stepTim b line n = .ok b1 ∧ b1.started = b.started ∧
      b1.off = b.off + n ∧ b1.st.scan_list = b.st.scan_list := by
  unfold stepTim at h ⊢
  repeat' split at h
  all_goals try exact Except.noConfusion h
  all_goals exact ⟨_, rfl, rfl, rfl, rfl⟩

theorem stepTexp_sim {a : LoopSt} {line : List Char} {n : Nat} {a1 : LoopSt}
    (h : stepTexp a line n = .ok a1) (b : LoopSt) :
    ∃ b1, stepTexp b line n = .ok b1 ∧ b1.started = b.started ∧
      b1.off = b.off + n ∧ b1.st.scan_list = b.st.scan_list := by
  unfold stepTexp at h ⊢
  split at h
  · exact Except.noConfusion h
  · split at h
    · rename_i hacc
      rw [if_pos hacc]
      exact ⟨_, rfl, rfl, rfl, rfl⟩
    · exact Except.noConfusion h

theorem stepMcaFmt_sim {a : LoopSt} {line : List Char} {n : Nat} {a1 : LoopSt}
    (h : stepMcaFmt a line n = .ok a1) (b : LoopSt) :
    ∃ b1, stepMcaFmt b line n = .ok b1 ∧ b1.started = b.started ∧
      b1.off = b.off + n ∧ b1.st.scan_list = b.st.scan_list := by
  unfold stepMcaFmt at h ⊢
  repeat' split at h
  all_goals try exact Except.noConfusion h
  all_goals exact ⟨_, rfl, rfl, rfl, rfl⟩

theorem stepMcaChan_sim {a : LoopSt} {line : List Char} {n : Nat} {a1 : LoopSt}
    (h : stepMcaChan a line n = .ok a1) (b : LoopSt) :
    ∃ b1, stepMcaChan b line n = .ok b1 ∧ b1.started = b.started ∧
      b1.off = b.off + n ∧ b1.st.scan_list = b.st.scan_list := by
  unfold stepMcaChan at h ⊢
  repeat' split at h
  all_goals try exact Except.noConfusion h
  all_goals exact ⟨_, rfl, rfl, rfl, rfl⟩

/-- Replay of one non-appending step: whether a step succeeds, and
whether it appends, depends only on the line and the started flag, so
a step that appended nothing runs identically from any state with the
same started flag; the byte cursors stay in lockstep and the replay
appends nothing either. -/
theorem simStep {a b a1 : LoopSt} {raw : List Char}
    (h : parseStep a raw = .ok a1)
    (hnoapp : a1.st.scan_list = a.st.scan_list)
    (hst : a.started = b.started) (hoff : a.off = b.off)
    (hsl : a.st.scan_list = b.st.scan_list) :
    ∃ b1, parseStep b raw = .ok b1 ∧
      a1.started = b1.started ∧ a1.off = b1.off ∧
      a1.st.scan_list = b1.st.scan_list ∧ b1.st.scan_list = b.st.scan_list := by
  cases hc : classify a.started (pyStrip raw)
  all_goals have hcb := hc
  all_goals rw [hst] at hcb
  case broken =>
    rw [parseStep_eq_broken hc] at h
    obtain ⟨s, e1, _, _, _⟩ := stepBroken_fact h
    subst e1
    simp [adv, appendScan] at hnoapp
  case dataln =>
    rw [parseStep_eq_dataln hc] at h
    obtain ⟨s, e1, _⟩ := stepDataln_fact h
    subst e1
    simp [adv, appendScan] at hnoapp
  case runScan =>
    rw [parseStep_eq_runScan hc] at h
    obtain ⟨s, e1, _, _, _, _⟩ := stepRunScan_fact h
    rw [e1] at hnoapp
    simp at hnoapp
  case runIdle =>
    rw [parseStep_eq_runIdle hc] at h
    unfold stepRunIdle at h
    split at h
    · exact Except.noConfusion h
    · rename_i a2 heq
      injection h with h2
      subst h2
      obtain ⟨f1, f2, f3, f4, f5, f6, f7⟩ := startScan_ok heq
      obtain ⟨b2, hb2, g7, g1, g2⟩ := startScan_sim heq b
      refine ⟨adv { b2 with itime := some PyFloat.nan, time := some "" } (lineLen raw),
              ?_, ?_, ?_, ?_, ?_⟩
      · rw [parseStep_eq_runIdle hcb]
        unfold stepRunIdle
        rw [hb2]
      · show a2.started = b2.started
        rw [f7, g7]
      · show a2.off + _ = b2.off + _
        rw [f1, g1, hoff]
      · show a2.st.scan_list = b2.st.scan_list
        rw [f2, g2, hsl]
      · show b2.st.scan_list = b.st.scan_list
        exact g2
  case other =>
    rw [parseStep_eq_other hc] at h
    injection h with h2
    subst h2
    refine ⟨adv b (lineLen raw), by rw [parseStep_eq_other hcb], hst, ?_, hsl, rfl⟩
    show a.off + lineLen raw = b.off + lineLen raw
    rw [hoff]
  case newhdr =>
    rw [parseStep_eq_newhdr hc] at h
    obtain ⟨a1b, ha1b, t1, t2, t3⟩ := stepNewhdr_sim h a
    rw [h] at ha1b
    injection ha1b with e
    subst e
    obtain ⟨b1, hb1, s1, s2, s3⟩ := stepNewhdr_sim h b
    refine ⟨b1, by rw [parseStep_eq_newhdr hcb]; exact hb1, ?_, ?_, ?_, s3⟩
    · rw [t1, s1]; exact hst
    · rw [t2, s2, hoff]
    · rw [t3, s3]; exact hsl
  case motFh =>
    rw [parseStep_eq_motFh hc] at h
    obtain ⟨a1b, ha1b, t1, t2, t3⟩ := stepMotFh_sim h a
    rw [h] at ha1b
    injection ha1b with e
    subst e
    obtain ⟨b1, hb1, s1, s2, s3⟩ := stepMotFh_sim h b
    refine ⟨b1, by rw [parseStep_eq_motFh hcb]; exact hb1, ?_, ?_, ?_, s3⟩
    · rw [t1, s1]; exact hst
    · rw [t2, s2, hoff]
    · rw [t3, s3]; exact hsl
  case cmd =>
    rw [parseStep_eq_cmd hc] at h
    obtain ⟨a1b, ha1b, t1, t2, t3⟩ := stepCmd_sim h a
    rw [h] at ha1b
    injection ha1b with e
    subst e
    obtain ⟨b1, hb1, s1, s2, s3⟩ := stepCmd_sim h b
    refine ⟨b1, by rw [parseStep_eq_cmd hcb]; exact hb1, ?_, ?_, ?_, s3⟩
    · rw [t1, s1]; exact hst
    · rw [t2, s2, hoff]
    · rw [t3, s3]; exact hsl
  case tim =>
    rw [parseStep_eq_tim hc] at h
    obtain ⟨a1b, ha1b, t1, t2, t3⟩ := stepTim_sim h a
    rw [h] at ha1b
    injection ha1b with e
    subst e
    obtain ⟨b1, hb1, s1, s2, s3⟩ := stepTim_sim h b
    refine ⟨b1, by rw [parseStep_eq_tim hcb]; exact hb1, ?_, ?_, ?_, s3⟩
    · rw [t1, s1]; exact hst
    · rw [t2, s2, hoff]
    · rw [t3, s3]; exact hsl
  case texp =>
    rw [parseStep_eq_texp hc] at h
    obtain ⟨a1b, ha1b, t1, t2, t3⟩ := stepTexp_sim h a
    rw [h] at ha1b
    injection ha1b with e
    subst e
    obtain ⟨b1, hb1, s1, s2, s3⟩ := stepTexp_sim h b
    refine ⟨b1, by rw [parseStep_eq_texp hcb]; exact hb1, ?_, ?_, ?_, s3⟩
    · rw [t1, s1]; exact hst
    · rw [t2, s2, hoff]
    · rw [t3, s3]; exact hsl
  case motSh =>
    rw [parseStep_eq_motSh hc] at h
    obtain ⟨a1b, ha1b, t1, t2, t3⟩ := stepMotSh_sim h a
    rw [h] at ha1b
    injection ha1b with e
    subst e
    obtain ⟨b1, hb1, s1, s2, s3⟩ := stepMotSh_sim h b
    refine ⟨b1, by rw [parseStep_eq_motSh hcb]; exact hb1, ?_, ?_, ?_, s3⟩
    · rw [t1, s1]; exact hst
    · rw [t2, s2, hoff]
    · rw [t3, s3]; exact hsl
  case val =>
    rw [parseStep_eq_val hc] at h
    obtain ⟨a1b, ha1b, t1, t2, t3⟩ := stepVal_sim h a
    rw [h] at ha1b
    injection ha1b with e
    subst e
    obtain ⟨b1, hb1, s1, s2, s3⟩ := stepVal_sim h b
    refine ⟨b1, by rw [parseStep_eq_val hcb]; exact hb1, ?_, ?_, ?_, s3⟩
    · rw [t1, s1]; exact hst
    · rw [t2, s2, hoff]
    · rw [t3, s3]; exact hsl
  case col =>
    rw [parseStep_eq_col hc] at h
    obtain ⟨a1b, ha1b, t1, t2, t3⟩ := stepCol_sim h a
    rw [h] at ha1b
    injection ha1b with e
    subst e
    obtain ⟨b1, hb1, s1, s2, s3⟩ := stepCol_sim h b
    refine ⟨b1, by rw [parseStep_eq_col hcb]; exact hb1, ?_, ?_, ?_, s3⟩
    · rw [t1, s1]; exact hst
    · rw [t2, s2, hoff]
    · rw [t3, s3]; exact hsl
  case mcaFmt =>
    rw [parseStep_eq_mcaFmt hc] at h
    obtain ⟨a1b, ha1b, t1, t2, t3⟩ := stepMcaFmt_sim h a
    rw [h] at ha1b
    injection ha1b with e
    subst e
    obtain ⟨b1, hb1, s1, s2, s3⟩ := stepMcaFmt_sim h b
    refine ⟨b1, by rw [parseStep_eq_mcaFmt hcb]; exact hb1, ?_, ?_, ?_, s3⟩
    · rw [t1, s1]; exact hst
    · rw [t2, s2, hoff]
    · rw [t3, s3]; exact hsl
  case mcaChan =>
    rw [parseStep_eq_mcaChan hc] at h
    obtain ⟨a1b, ha1b, t1, t2, t3⟩ := stepMcaChan_sim h a
    rw [h] at ha1b
    injection ha1b with e
    subst e
    obtain ⟨b1, hb1, s1, s2, s3⟩ := stepMcaChan_sim h b
    refine ⟨b1, by rw [parseStep_eq_mcaChan hcb]; exact hb1, ?_, ?_, ?_, s3⟩
    · rw [t1, s1]; exact hst
    · rw [t2, s2, hoff]
    · rw [t3, s3]; exact hsl

/-- Replay of a non-appending run: a run of the line loop that appended
no record replays from any state with the same started flag and byte
cursor without appending anything either. -/
theorem simRun {R : List (List Char)} :
    ∀ {a e b : LoopSt}, parseLines a R = .ok e →
    e.st.scan_list = a.st.scan_list →
    a.started = b.started → a.off = b.off → a.st.scan_list = b.st.scan_list →
    ∃ b2, parseLines b R = .ok b2 ∧ b2.st.scan_list = b.st.scan_list := by
  induction R with
  | nil =>
    intro a e b h _ _ _ _
    injection h with h2
    subst h2
    exact ⟨b, rfl, rfl⟩
  | cons x R ih =>
    intro a e b h hnoapp hst hoff hsl
    unfold parseLines at h
    split at h
    · exact Except.noConfusion h
    · rename_i a1 hstep
      have hstep_noapp : a1.st.scan_list = a.st.scan_list := by
        rcases parseStep_scanlist hstep with he | ⟨s, he, _⟩
        · exact he
        · exfalso
          obtain ⟨D1, hD1, _⟩ := parseLines_append h
          rw [he] at hD1
          rw [hnoapp] at hD1
          have := congrArg List.length hD1
          simp [List.length_append] at this
      obtain ⟨b1, hb1, r1, r2, r3, r4⟩ := simStep hstep hstep_noapp hst hoff hsl
      obtain ⟨D1, hD1, _⟩ := parseLines_append h
      have hrun_noapp : e.st.scan_list = a1.st.scan_list := by
        have hx : a.st.scan_list = a.st.scan_list ++ D1 := by
          calc a.st.scan_list = e.st.scan_list := hnoapp.symm
            _ = a1.st.scan_list ++ D1 := hD1
            _ = a.st.scan_list ++ D1 := by rw [hstep_noapp]
        have hnil : D1 = [] := by
          have := congrArg List.length hx
          simp [List.length_append] at this
          exact this
        rw [hD1, hnil, List.append_nil]
      obtain ⟨b2, hb2, hb2l⟩ := ih h hrun_noapp r1 r2 r3
      refine ⟨b2, ?_, by rw [hb2l, r4]⟩
      unfold parseLines
      rw [hb1]
      exact hb2

/-- A line classified as a data row cannot start with a hash: the first
character after the optional signs must be a digit. -/
theorem dataline_not_hash {line : List Char} (hd : isDataline line = true) :
    ∀ (p : List Char), startsWithL line ('#' :: p) = false := by
  intro p
  cases line with
  | nil => simp [isDataline] at hd
  | cons c rest =>
    by_cases hc : c = '+' ∨ c = '-'
    · unfold startsWithL
      rcases hc with hc | hc <;> subst hc <;> simp
    · unfold isDataline at hd
      rw [List.dropWhile_cons_of_neg (by simpa using hc)] at hd
      unfold startsWithL
      have : c ≠ '#' := by
        intro he
        subst he
        simp at hd
      simp [this]

/-- The data-row arm firing tells us the started flag was set, the line
is a data row, and the higher-priority guards all failed. -/
theorem classify_dataln_imp {s : Bool} {line : List Char}
    (hc : classify s line = .dataln) :
    s = true ∧ isDataline line = true ∧
    startsWithL line "#E".data = false ∧
    startsWithL line "#MOT".data = false ∧
    scanbrokenContains line = false := by
  unfold classify at hc
  by_cases g1 : startsWithL line "#E".data = true
  · rw [if_pos g1] at hc; exact Branch.noConfusion hc
  rw [if_neg g1] at hc
  by_cases g2 : (startsWithL line "#MOT".data && !s) = true
  · rw [if_pos g2] at hc; exact Branch.noConfusion hc
  rw [if_neg g2] at hc
  by_cases g3 : (startsWithL line "#RUN".data && !s) = true
  · rw [if_pos g3] at hc; exact Branch.noConfusion hc
  rw [if_neg g3] at hc
  by_cases g4 : (startsWithL line "#CMD".data && s) = true
  · rw [if_pos g4] at hc; exact Branch.noConfusion hc
  rw [if_neg g4] at hc
  by_cases g5 : (startsWithL line "#TIM".data && s) = true
  · rw [if_pos g5] at hc; exact Branch.noConfusion hc
  rw [if_neg g5] at hc
  by_cases g6 : (startsWithL line "#T".data && s) = true
  · rw [if_pos g6] at hc; exact Branch.noConfusion hc
  rw [if_neg g6] at hc
  by_cases g7 : (startsWithL line "#MOT".data && s) = true
  · rw [if_pos g7] at hc; exact Branch.noConfusion hc
  rw [if_neg g7] at hc
  by_cases g8 : (startsWithL line "#VAL".data && s) = true
  · rw [if_pos g8] at hc; exact Branch.noConfusion hc
  rw [if_neg g8] at hc
  by_cases g9 : (startsWithL line "#COL".data && s) = true
  · rw [if_pos g9] at hc; exact Branch.noConfusion hc
  rw [if_neg g9] at hc
  by_cases g10 : (startsWithL line "#@MCA".data && s) = true
  · rw [if_pos g10] at hc; exact Branch.noConfusion hc
  rw [if_neg g10] at hc
  by_cases g11 : (startsWithL line "#@CHANN".data && s) = true
  · rw [if_pos g11] at hc; exact Branch.noConfusion hc
  rw [if_neg g11] at hc
  by_cases g12 : (scanbrokenContains line && s) = true
  · rw [if_pos g12] at hc; exact Branch.noConfusion hc
  rw [if_neg g12] at hc
  by_cases g13 : (isDataline line && s) = true
  · rw [if_pos g13] at hc
    rw [Bool.and_eq_true] at g13
    obtain ⟨hd, hs⟩ := g13
    subst hs
    refine ⟨rfl, hd, ?_, ?_, ?_⟩
    · cases he : startsWithL line "#E".data
      · rfl
      · exact absurd he g1
    · cases hmot : startsWithL line "#MOT".data
      · rfl
      · exact absurd (by rw [hmot]; rfl) g7
    · cases hbr : scanbrokenContains line
      · rfl
      · exact absurd (by rw [hbr]; rfl) g12
  rw [if_neg g13] at hc
  by_cases g14 : (startsWithL line "#RUN".data && s) = true
  · rw [if_pos g14] at hc; exact Branch.noConfusion hc
  · rw [if_neg g14] at hc; exact Branch.noConfusion hc

/-- With the started flag clear, a line that matches none of the three
idle-state guards falls through the whole chain. -/
theorem classify_false_other {line : List Char}
    (h1 : startsWithL line "#E".data = false)
    (h2 : startsWithL line "#MOT".data = false)
    (h3 : startsWithL line "#RUN".data = false) :
    classify false line = .other := by
  unfold classify
  simp [h1, h2, h3]

/-- An element delivered by getLast? is a member of the list. -/
theorem getLast?_mem_local {α : Type} : ∀ {l : List α} {a : α},
    l.getLast? = some a → a ∈ l := by
  intro l
  induction l with
  | nil => intro a h; exact Option.noConfusion h
  | cons x xs ih =>
    intro a h
    cases xs with
    | nil =>
      simp [List.getLast?] at h
      simp [h]
    | cons y ys =>
      rw [List.getLast?_cons_cons] at h
      exact List.mem_cons_of_mem x (ih h)

/-- An appending step whose record has a present data offset and status
OK can only be the data-row arm; it records the current cursor as the
data offset and returns to the idle state. -/
theorem parseStep_append_cases {l : LoopSt} {raw : List Char} {l1 : LoopSt}
    {s : SpecScanRec} (h : parseStep l raw = .ok l1)
    (hap : l1.st.scan_list = l.st.scan_list ++ [s]) :
    (s.doffset = some l.off ∧ s.scan_status = "NODATA" ∧ l1.started = false) ∨
    (classify l.started (pyStrip raw) = .dataln ∧ s.doffset = some l.off ∧
      l1.started = false) ∨
    (s.doffset = none ∧ s.scan_status = "NODATA" ∧ l1.started = true) := by
  cases hc : classify l.started (pyStrip raw)
  case broken =>
    rw [parseStep_eq_broken hc] at h
    obtain ⟨s2, e1, e2, e3, e4⟩ := stepBroken_fact h
    subst e1
    have hs : s2 = s := by
      have h2 : l.st.scan_list ++ [s2] = l.st.scan_list ++ [s] := hap
      simpa using List.append_cancel_left h2
    subst hs
    exact Or.inl ⟨e2, e3, rfl⟩
  case dataln =>
    rw [parseStep_eq_dataln hc] at h
    obtain ⟨s2, e1, e2⟩ := stepDataln_fact h
    subst e1
    have hs : s2 = s := by
      have h2 : l.st.scan_list ++ [s2] = l.st.scan_list ++ [s] := hap
      simpa using List.append_cancel_left h2
    subst hs
    exact Or.inr (Or.inl ⟨rfl, e2, rfl⟩)
  case runScan =>
    rw [parseStep_eq_runScan hc] at h
    obtain ⟨s2, e1, e2, e3, e4, e5⟩ := stepRunScan_fact h
    have hs : s2 = s := by
      have h2 : l.st.scan_list ++ [s2] = l.st.scan_list ++ [s] :=
        e1.symm.trans hap
      simpa using List.append_cancel_left h2
    subst hs
    exact Or.inr (Or.inr ⟨e2, e5, e3⟩)
  case runIdle =>
    exfalso
    rw [parseStep_eq_runIdle hc] at h
    unfold stepRunIdle at h
    split at h
    · exact Except.noConfusion h
    · rename_i a2 heq
      injection h with h2
      subst h2
      obtain ⟨e1, e2, _, _, _, _, _⟩ := startScan_ok heq
      have h3 : a2.st.scan_list = l.st.scan_list ++ [s] := hap
      rw [e2] at h3
      have h4 := congrArg List.length h3
      simp [List.length_append] at h4
  all_goals exfalso
  all_goals first
    | rw [parseStep_eq_newhdr hc] at h
    | rw [parseStep_eq_motFh hc] at h
    | rw [parseStep_eq_cmd hc] at h
    | rw [parseStep_eq_tim hc] at h
    | rw [parseStep_eq_texp hc] at h
    | rw [parseStep_eq_motSh hc] at h
    | rw [parseStep_eq_val hc] at h
    | rw [parseStep_eq_col hc] at h
    | rw [parseStep_eq_mcaFmt hc] at h
    | rw [parseStep_eq_mcaChan hc] at h
    | rw [parseStep_eq_other hc] at h
  all_goals
    try simp only [stepNewhdr, stepMotFh, stepCmd, stepTim, stepTexp,
      stepMotSh, stepVal, stepCol, stepMcaFmt, stepMcaChan] at h
  all_goals repeat' split at h
  all_goals try exact Except.noConfusion h
  all_goals injection h with h2
  all_goals subst h2
  all_goals
    have h4 := congrArg List.length hap
  all_goals simp [adv, List.length_append] at h4

/-- An appending step whose record has status OK is the data-row arm. -/
theorem parseStep_append_OK {l : LoopSt} {raw : List Char} {l1 : LoopSt}
    {s : SpecScanRec} (h : parseStep l raw = .ok l1)
    (hap : l1.st.scan_list = l.st.scan_list ++ [s])
    (hok : s.scan_status = "OK") :
    classify l.started (pyStrip raw) = .dataln ∧ s.doffset = some l.off ∧
      l1.started = false := by
  rcases parseStep_append_cases h hap with ⟨_, hn, _⟩ | hgood | ⟨_, hn, _⟩
  · exact absurd (hn.symm.trans hok) (by decide)
  · exact hgood
  · exact absurd (hn.symm.trans hok) (by decide)

/-- Seeking to offset zero yields the whole file. -/
theorem linesFrom_zero (L : List (List Char)) : linesFrom L 0 = L := by
  cases L <;> rfl

/-- Seeking past a whole line skips it. -/
theorem linesFrom_cons_ge {x : List Char} {R : List (List Char)} {k : Nat}
    (h : lineLen x ≤ k) : linesFrom (x :: R) k = linesFrom R (k - lineLen x) := by
  cases k with
  | zero =>
    exfalso
    have : 1 ≤ lineLen x := by simp [lineLen]
    omega
  | succ j =>
    show linesFrom (x :: R) (j + 1) = _
    rw [show linesFrom (x :: R) (j + 1) =
          (if j + 1 < lineLen x then x.drop (j + 1) :: R
           else linesFrom R (j + 1 - lineLen x)) from rfl]
    rw [if_neg (by omega : ¬ (j + 1 < lineLen x))]

/-- Core replay lemma: if a run of the line loop appended at least one
record and the last record of the resulting scan list is an OK scan
with data offset d, then re-running the loop from a fresh idle state
whose cursor sits at d (and whose scan list is the run result) appends
nothing: the scan list comes out unchanged. -/
theorem replay_main {e : LoopSt} {r : SpecScanRec} {d : Nat} {b : LoopSt}
    (hr : e.st.scan_list.getLast? = some r)
    (hd : r.doffset = some d) (hok : r.scan_status = "OK")
    (hbs : b.started = false) (hbo : b.off = d)
    (hbl : b.st.scan_list = e.st.scan_list) :
    ∀ (L : List (List Char)) (a : LoopSt),
      parseLines a L = .ok e →
      a.st.scan_list.length < e.st.scan_list.length →
      ∃ b1, parseLines b (linesFrom L (d - a.off)) = .ok b1 ∧
        b1.st.scan_list = e.st.scan_list := by
  intro L
  induction L with
  | nil =>
    intro a h hlen
    injection h with h2
    subst h2
    exact absurd hlen (lt_irrefl _)
  | cons x R ih =>
    intro a h hlen
    unfold parseLines at h
    split at h
    · exact Except.noConfusion h
    · rename_i a1 hstep
      obtain ⟨hoff1, _, _, _, _⟩ := parseStep_pres hstep
      obtain ⟨D1, hD1, hbound1⟩ := parseLines_append h
      cases hD1nil : D1 with
      | nil =>
        rw [hD1nil, List.append_nil] at hD1
        rcases parseStep_scanlist hstep with hsame | ⟨s, happ, _⟩
        · exfalso
          rw [hD1, hsame] at hlen
          exact lt_irrefl _ hlen
        · have hrs : s = r := by
            rw [hD1, happ] at hr
            rw [List.getLast?_append_of_ne_nil _ (by simp)] at hr
            simpa using hr
          subst hrs
          obtain ⟨hcdat, hdoff, hstarted⟩ := parseStep_append_OK hstep happ hok
          have hda : d = a.off := by
            rw [hdoff] at hd
            injection hd with h3
            omega
          obtain ⟨hsT, hdl, hnE, hnMOT, hnBrk⟩ := classify_dataln_imp hcdat
          have hnRUN : startsWithL (pyStrip x) "#RUN".data = false :=
            dataline_not_hash hdl _
          have hcb : classify b.started (pyStrip x) = .other := by
            rw [hbs]
            exact classify_false_other hnE hnMOT hnRUN
          have hbstep : parseStep b x = .ok (adv b (lineLen x)) :=
            parseStep_eq_other hcb
          have hrel1 : a1.started = (adv b (lineLen x)).started := by
            show a1.started = b.started
            rw [hstarted, hbs]
          have hrel2 : a1.off = (adv b (lineLen x)).off := by
            show a1.off = b.off + lineLen x
            rw [hoff1, hbo, hda]
          have hrel3 : a1.st.scan_list = (adv b (lineLen x)).st.scan_list := by
            show a1.st.scan_list = b.st.scan_list
            rw [hbl, hD1]
          obtain ⟨b2, hb2run, hb2l⟩ := simRun h hD1 hrel1 hrel2 hrel3
          refine ⟨b2, ?_, ?_⟩
          · rw [hda, Nat.sub_self, linesFrom_zero]
            unfold parseLines
            rw [hbstep]
            exact hb2run
          · rw [hb2l]
            show b.st.scan_list = _
            exact hbl
      | cons s0 D1x =>
        have hge : a1.off ≤ d := by
          have h1 : e.st.scan_list.getLast? = D1.getLast? := by
            rw [hD1]
            exact List.getLast?_append_of_ne_nil _ (by rw [hD1nil]; simp)
          have h2 : r ∈ D1 :=
            getLast?_mem_local (h1.symm.trans hr)
          exact hbound1 r h2 d hd
        have hlx : lineLen x ≤ d - a.off := by
          rw [hoff1] at hge
          omega
        rw [linesFrom_cons_ge hlx]
        have harith : d - a.off - lineLen x = d - a1.off := by
          rw [hoff1]
          omega
        rw [harith]
        apply ih a1 h
        rw [hD1, hD1nil]
        simp [List.length_append]

/-- Seeking in two hops lands at the same place as seeking once. -/
theorem linesFrom_add : ∀ (X : List (List Char)) (a b : Nat),
    linesFrom X (a + b) = linesFrom (linesFrom X a) b := by
  intro X
  induction X with
  | nil =>
    intro a b
    cases a <;> cases b <;> rfl
  | cons x xs ih =>
    intro a b
    cases a with
    | zero => rw [linesFrom_zero, Nat.zero_add]
    | succ j =>
      by_cases hmid : j + 1 < lineLen x
      · have hx1 : linesFrom (x :: xs) (j + 1) = x.drop (j + 1) :: xs := by
          rw [show linesFrom (x :: xs) (j + 1) =
                (if j + 1 < lineLen x then x.drop (j + 1) :: xs
                 else linesFrom xs (j + 1 - lineLen x)) from rfl]
          rw [if_pos hmid]
        rw [hx1]
        cases b with
        | zero => rw [Nat.add_zero, hx1, linesFrom_zero]
        | succ k =>
          have hm : j + 1 < x.length + 1 := by simpa [lineLen] using hmid
          have hlen : lineLen (x.drop (j + 1)) = lineLen x - (j + 1) := by
            simp [lineLen, List.length_drop]
            omega
          by_cases hmid2 : j + 1 + (k + 1) < lineLen x
          · rw [show linesFrom (x :: xs) (j + 1 + (k + 1)) =
                  (if j + 1 + (k + 1) < lineLen x then x.drop (j + 1 + (k + 1)) :: xs
                   else linesFrom xs (j + 1 + (k + 1) - lineLen x)) from rfl]
            rw [if_pos hmid2]
            rw [show linesFrom (x.drop (j + 1) :: xs) (k + 1) =
                  (if k + 1 < lineLen (x.drop (j + 1)) then
                     (x.drop (j + 1)).drop (k + 1) :: xs
                   else linesFrom xs (k + 1 - lineLen (x.drop (j + 1)))) from rfl]
            rw [if_pos (by omega : k + 1 < lineLen (x.drop (j + 1)))]
            rw [List.drop_drop]
          · rw [show linesFrom (x :: xs) (j + 1 + (k + 1)) =
                  (if j + 1 + (k + 1) < lineLen x then x.drop (j + 1 + (k + 1)) :: xs
                   else linesFrom xs (j + 1 + (k + 1) - lineLen x)) from rfl]
            rw [if_neg hmid2]
            rw [show linesFrom (x.drop (j + 1) :: xs) (k + 1) =
                  (if k + 1 < lineLen (x.drop (j + 1)) then
                     (x.drop (j + 1)).drop (k + 1) :: xs
                   else linesFrom xs (k + 1 - lineLen (x.drop (j + 1)))) from rfl]
            rw [if_neg (by omega : ¬ (k + 1 < lineLen (x.drop (j + 1))))]
            congr 1 <;> omega
      · have hge : lineLen x ≤ j + 1 := by omega
        rw [linesFrom_cons_ge hge,
            linesFrom_cons_ge (by omega : lineLen x ≤ j + 1 + b)]
        rw [show j + 1 + b - lineLen x = (j + 1 - lineLen x) + b by omega]
        exact ih _ b

/-- Shape of a successful Parse call: the stored offset was a number,
the loop succeeded, the resulting scan list is non-empty, and the new
stored offset is the data offset of its last element. -/
theorem ParseFile_ok {st : PalState} {file : List (List Char)} {st' : PalState}
    (h : ParseFile st file = .ok st') :
    ∃ o e s, st.last_offset = some o ∧
      parseLines (initLoop st o) (linesFrom file o) = .ok e ∧
      e.st.scan_list.getLast? = some s ∧
      st' = { e.st with last_offset := s.doffset } := by
  unfold ParseFile at h
  split at h
  · exact Except.noConfusion h
  · rename_i o hoeq
    split at h
    · exact Except.noConfusion h
    · rename_i e heq
      split at h
      · exact Except.noConfusion h
      · rename_i s hlast
        injection h with h2
        exact ⟨o, e, s, hoeq, heq, hlast, h2.symm⟩

/-- A first parse pass over a file from a fresh state, ending with an
OK last scan, is idempotent: running Parse again (which resumes at the
stored last_offset, the data offset of that last scan) leaves the scan
list and the stored offset unchanged. -/
theorem ParseFile_second_pass {st st1 : PalState} {file : List (List Char)}
    {r : SpecScanRec} {d : Nat}
    (h0 : st.scan_list = [])
    (h1 : ParseFile st file = .ok st1)
    (h2 : st1.scan_list.getLast? = some r)
    (h3 : r.doffset = some d)
    (h4 : r.scan_status = "OK") :
    ∃ st2, ParseFile st1 file = .ok st2 ∧ st2.scan_list = st1.scan_list ∧
      st2.last_offset = st1.last_offset := by
  obtain ⟨o, e, s, ho, hrun, hlast, hst1⟩ := ParseFile_ok h1
  have hsl1 : st1.scan_list = e.st.scan_list := by rw [hst1]
  have hsr : s = r := by
    rw [hsl1, hlast] at h2
    injection h2
  subst hsr
  have hlo1 : st1.last_offset = some d := by
    rw [hst1]
    show s.doffset = some d
    exact h3
  obtain ⟨D, hD, hbound⟩ := parseLines_append hrun
  have hinit_sl : (initLoop st o).st.scan_list = [] := h0
  have hlen : (initLoop st o).st.scan_list.length < e.st.scan_list.length := by
    rw [hinit_sl]
    have hne : e.st.scan_list ≠ [] :=
      List.ne_nil_of_mem (getLast?_mem_local hlast)
    simpa using List.length_pos.mpr hne
  have hge : o ≤ d := by
    have hD' : e.st.scan_list = D := by
      rw [hD, hinit_sl]
      simp
    have hmem : s ∈ D := getLast?_mem_local (by rw [← hD']; exact hlast)
    exact hbound s hmem d h3
  obtain ⟨b1, hb1run, hb1l⟩ :=
    replay_main hlast h3 h4 (b := initLoop st1 d) rfl rfl hsl1
      (linesFrom file o) (initLoop st o) hrun hlen
  have hlf : linesFrom (linesFrom file o) (d - (initLoop st o).off) =
      linesFrom file d := by
    rw [← linesFrom_add]
    congr 1
    show o + (d - o) = d
    omega
  rw [hlf] at hb1run
  refine ⟨{ b1.st with last_offset := s.doffset }, ?_, ?_, ?_⟩
  · simp only [ParseFile, hlo1, hb1run, hb1l, hlast]
  · show b1.st.scan_list = st1.scan_list
    rw [hb1l, hsl1]
  · show s.doffset = st1.last_offset
    rw [h3, hlo1]

theorem classify_abort {rest : List Char}
    (hb : scanbrokenContains ('#' :: 'C' :: rest) = true)
    (hnCMD : startsWithL ('#' :: 'C' :: rest) "#CMD".data = false)
    (hnCOL : startsWithL ('#' :: 'C' :: rest) "#COL".data = false) :
    classify true ('#' :: 'C' :: rest) = .broken := by
  simp [startsWithL] at hnCMD hnCOL
  unfold classify
  simp [startsWithL, hb, hnCMD, hnCOL, isDataline]

theorem classify_idle_hashC (rest : List Char) :
    classify false ('#' :: 'C' :: rest) = .other := by
  apply classify_false_other <;> simp [startsWithL]

theorem abort_step {l : LoopSt} {rest raw : List Char}
    (hst : l.started = true)
    (hline : pyStrip raw = '#' :: 'C' :: rest)
    (hb : scanbrokenContains ('#' :: 'C' :: rest) = true)
    (hnCMD : startsWithL ('#' :: 'C' :: rest) "#CMD".data = false)
    (hnCOL : startsWithL ('#' :: 'C' :: rest) "#COL".data = false)
    (hnr : l.scannr.isSome = true) (hcm : l.scancmd.isSome = true)
    (hdt : l.date.isSome = true) (htm : l.time.isSome = true)
    (hit : l.itime.isSome = true) (hcn : l.colNames.isSome = true)
    (hho : l.hOffset.isSome = true) :
    ∃ s, parseStep l raw = .ok (adv (appendScan l s) (lineLen raw)) ∧
      s.scan_status = "NODATA" ∧ s.doffset = some l.off ∧ s.mca = none := by
  have hc : classify l.started (pyStrip raw) = .broken := by
    rw [hst, hline]
    exact classify_abort hb hnCMD hnCOL
  rw [parseStep_eq_broken hc]
  obtain ⟨nr, hnr2⟩ := Option.isSome_iff_exists.mp hnr
  obtain ⟨cm, hcm2⟩ := Option.isSome_iff_exists.mp hcm
  obtain ⟨dt, hdt2⟩ := Option.isSome_iff_exists.mp hdt
  obtain ⟨tm, htm2⟩ := Option.isSome_iff_exists.mp htm
  obtain ⟨it, hit2⟩ := Option.isSome_iff_exists.mp hit
  obtain ⟨cn, hcn2⟩ := Option.isSome_iff_exists.mp hcn
  obtain ⟨ho, hho2⟩ := Option.isSome_iff_exists.mp hho
  have hbuild : buildScan l (some l.off) (.ok "NODATA") = .ok
      { name := "scan_" ++ toString nr, nr := nr, command := cm, date := dt,
        time := tm, itime := it, colnames := cn, hoffset := ho,
        doffset := some l.off, fname := l.st.full_filename,
        init_mopo_names := l.st.init_motor_names,
        init_mopo_values := l.motorVals, scan_status := "NODATA", mca := none,
        ischanged := true } := by
    simp only [buildScan, hnr2, hcm2, hdt2, htm2, hit2, hcn2, hho2]
  refine ⟨{ name := "scan_" ++ toString nr, nr := nr, command := cm, date := dt,
            time := tm, itime := it, colnames := cn, hoffset := ho,
            doffset := some l.off, fname := l.st.full_filename,
            init_mopo_names := l.st.init_motor_names,
            init_mopo_values := l.motorVals, scan_status := "NODATA",
            mca := none, ischanged := true }, ?_, rfl, rfl, rfl⟩
  simp only [stepBroken, hbuild]

theorem ParseFile_pres {st : PalState} {file : List (List Char)} {st2 : PalState}
    (h : ParseFile st file = .ok st2) :
    st2.curr_scan_nb = st.curr_scan_nb ∧ st2.scan_in_list = st.scan_in_list ∧
    st2.full_filename = st.full_filename := by
  obtain ⟨o, e, s, ho, hrun, hlast, hst2⟩ := ParseFile_ok h
  obtain ⟨_, q2, q3, _, q5⟩ := parseLines_pres hrun
  subst hst2
  exact ⟨q2, q3, q5⟩

theorem ParseFile_append {st : PalState} {file : List (List Char)} {st2 : PalState}
    (h : ParseFile st file = .ok st2) :
    ∃ D, st2.scan_list = st.scan_list ++ D := by
  obtain ⟨o, e, s, ho, hrun, hlast, hst2⟩ := ParseFile_ok h
  obtain ⟨D, hD, _⟩ := parseLines_append hrun
  subst hst2
  exact ⟨D, hD⟩

theorem appendFloats_takeWhile : ∀ (ts : List (List Char)) (acc : List PyFloat),
    appendFloats acc ts = acc ++ (ts.takeWhile pyFloatAccepts).map
      (fun t => PyFloat.ofTok (String.mk t)) := by
  intro ts
  induction ts with
  | nil => intro acc; simp [appendFloats]
  | cons t ts ih =>
    intro acc
    by_cases hp : pyFloatAccepts t = true
    · rw [show appendFloats acc (t :: ts) =
          appendFloats (acc ++ [PyFloat.ofTok (String.mk t)]) ts from by
            simp [appendFloats, hp],
        ih, List.takeWhile_cons_of_pos hp]
      simp
    · rw [show appendFloats acc (t :: ts) = acc from by
          simp [appendFloats, hp],
        List.takeWhile_cons_of_neg (by simpa using hp)]
      simp

theorem seqLoop_append {fs : FileSys} :
    ∀ (fuel : Nat) (st : PalState) (tr : List Int) {st2 : PalState}
      {tr2 : List Int} {fin : Bool},
    seqLoop fs fuel st tr = .ok (st2, tr2, fin) →
    ∃ D, st2.scan_list = st.scan_list ++ D := by
  intro fuel
  induction fuel with
  | zero =>
    intro st tr st2 tr2 fin h
    simp only [seqLoop] at h
    injection h with h2
    simp at h2
    exact ⟨[], by rw [← h2.1]; simp⟩
  | succ f ih =>
    intro st tr st2 tr2 fin h
    simp only [seqLoop] at h
    split at h
    · split at h
      · exact Except.noConfusion h
      · rename_i content hfs stp hpf
        obtain ⟨D2, hD2⟩ := ih _ _ h
        obtain ⟨D1, hD1⟩ := ParseFile_append hpf
        refine ⟨D1 ++ D2, ?_⟩
        rw [hD2]
        show stp.scan_list ++ D2 = st.scan_list ++ (D1 ++ D2)
        rw [hD1]
        show st.scan_list ++ D1 ++ D2 = st.scan_list ++ (D1 ++ D2)
        rw [List.append_assoc]
    · injection h with h2
      simp at h2
      exact ⟨[], by rw [← h2.1]; simp⟩

theorem listLoop_append {fs : FileSys} :
    ∀ (nbs : List Int) (st : PalState) (tr : List Int) {st2 : PalState}
      {tr2 : List Int} {fin : Bool},
    listLoop fs st nbs tr = .ok (st2, tr2, fin) →
    ∃ D, st2.scan_list = st.scan_list ++ D := by
  intro nbs
  induction nbs with
  | nil =>
    intro st tr st2 tr2 fin h
    simp only [listLoop] at h
    injection h with h2
    simp at h2
    exact ⟨[], by rw [← h2.1]; simp⟩
  | cons nb rest ih =>
    intro st tr st2 tr2 fin h
    simp only [listLoop] at h
    by_cases hge : nb ≥ st.curr_scan_nb
    · rw [if_pos hge] at h
      split at h
      · split at h
        · exact Except.noConfusion h
        · rename_i content hfs stp hpf
          obtain ⟨D2, hD2⟩ := ih _ _ h
          obtain ⟨D1, hD1⟩ := ParseFile_append hpf
          refine ⟨D1 ++ D2, ?_⟩
          rw [hD2]
          show stp.scan_list ++ D2 = st.scan_list ++ (D1 ++ D2)
          rw [hD1]
          show st.scan_list ++ D1 ++ D2 = st.scan_list ++ (D1 ++ D2)
          rw [List.append_assoc]
      · injection h with h2
        simp at h2
        refine ⟨[], ?_⟩
        rw [← h2.1]
        show st.scan_list = st.scan_list ++ []
        simp
    · rw [if_neg hge] at h
      exact ih _ _ h

theorem parse_folders_append {fs : FileSys} {fuel : Nat} {st st2 : PalState}
    {tr : List Int} {fin : Bool}
    (h : parse_folders fs fuel st = .ok (st2, tr, fin)) :
    ∃ D, st2.scan_list = st.scan_list ++ D := by
  unfold parse_folders at h
  by_cases hc : st.scan_in_list.length ≠ 0
  · rw [if_pos hc] at h
    exact listLoop_append _ _ _ h
  · rw [if_neg hc] at h
    exact seqLoop_append _ _ _ h

theorem range_shift_map (a : Int) : ∀ n : Nat,
    [a] ++ (List.range n).map (fun (i : Nat) => a + 1 + (i : Int)) =
    (List.range (n + 1)).map (fun (i : Nat) => a + (i : Int)) := by
  intro n
  induction n with
  | zero =>
    rw [show List.range 1 = [0] from rfl]
    simp
  | succ n ih =>
    have e1 : List.range (n + 1) = List.range n ++ [n] := List.range_succ n
    have e2 : List.range (n + 1 + 1) = List.range (n + 1) ++ [n + 1] :=
      List.range_succ (n + 1)
    rw [e1, e2, List.map_append, List.map_append, ← List.append_assoc, ih]
    congr 1
    simp only [List.map_cons, List.map_nil]
    congr 1
    push_cast
    ring

theorem seqLoop_run {fs : FileSys} :
    ∀ (fuel : Nat) (st : PalState) (tr : List Int) {st2 : PalState} {tr2 : List Int},
    seqLoop fs fuel st tr = .ok (st2, tr2, true) →
    ∃ n : Nat, st2.curr_scan_nb = st.curr_scan_nb + n ∧
      tr2 = tr ++ (List.range n).map (fun (i : Nat) => st.curr_scan_nb + (i : Int)) ∧
      fs (fileNameFor st2.curr_scan_nb) = none ∧
      ∀ i : Nat, i < n → fs (fileNameFor (st.curr_scan_nb + i)) ≠ none := by
  intro fuel
  induction fuel with
  | zero =>
    intro st tr st2 tr2 h
    simp only [seqLoop] at h
    injection h with h2
    simp at h2
  | succ f ih =>
    intro st tr st2 tr2 h
    simp only [seqLoop] at h
    split at h
    · split at h
      · exact Except.noConfusion h
      · rename_i x1 content hfs x2 stp hpf
        obtain ⟨n, hc, ht, hm, hp⟩ := ih _ _ h
        have hcur : stp.curr_scan_nb = st.curr_scan_nb := (ParseFile_pres hpf).1
        have hA : ({ stp with
            last_offset := some 0, curr_scan_nb := stp.curr_scan_nb + 1 } :
            PalState).curr_scan_nb = st.curr_scan_nb + 1 := by
          show stp.curr_scan_nb + 1 = st.curr_scan_nb + 1
          rw [hcur]
        rw [hA] at hc ht hp
        refine ⟨n + 1, by omega, ?_, hm, ?_⟩
        · rw [ht, List.append_assoc]
          congr 1
          exact range_shift_map st.curr_scan_nb n
        · intro i hi
          cases i with
          | zero =>
            have e : st.curr_scan_nb + ((0 : Nat) : Int) = st.curr_scan_nb := by
              push_cast
              ring
            rw [e, hfs]
            exact fun c => Option.noConfusion c
          | succ j =>
            have hj := hp j (by omega)
            have e : st.curr_scan_nb + 1 + (j : Int) =
                st.curr_scan_nb + ((j + 1 : Nat) : Int) := by
              push_cast
              ring
            rw [← e]
            exact hj
    · rename_i hfs
      injection h with h2
      simp at h2
      obtain ⟨e1, e2⟩ := h2
      subst e1 e2
      exact ⟨0, by simp, by simp, hfs, fun i hi => absurd hi (by omega)⟩

/-- Claim C1: parsing the same complete static file twice yields an
identical scan list. Corrected: this holds for the Parse pass itself
when the last record of the first pass is an OK scan (the second pass
resumes at its data offset and replays it identically), but the
surrounding parse_folders loop in explicit-list mode re-parses the
last listed file from offset zero and duplicates its scans. -/
theorem C1_parse_idempotent (st st1 : PalState) (file : List (List Char))
    (r : SpecScanRec) (d : Nat)
    (h0 : st.scan_list = [])
    (h1 : ParseFile st file = .ok st1)
    (h2 : st1.scan_list.getLast? = some r)
    (h3 : r.doffset = some d)
    (h4 : r.scan_status = "OK") :
    ∃ st2, ParseFile st1 file = .ok st2 ∧ st2.scan_list = st1.scan_list ∧
      st2.last_offset = st1.last_offset :=
  ParseFile_second_pass h0 h1 h2 h3 h4

theorem C1_parse_idempotent_witness :
    ∃ st2, ParseFile stA1 fileA = .ok st2 ∧ st2.scan_list = stA1.scan_list ∧
      st2.last_offset = stA1.last_offset :=
  C1_parse_idempotent stFresh stA1 fileA recA 39
    (by decide) (by decide) (by decide) (by decide) (by decide)

/-- Claim C1 counterexample: in explicit-list discovery mode, running
parse_folders twice over the same static folder duplicates the scan
record of the listed file (one record after the first run, two after
the second). -/
theorem C1_counterexample :
    ((parse_folders fsOne 4 (initState [1] 1)).toOption.bind (fun p =>
      (parse_folders fsOne 4 p.1).toOption.map (fun q =>
        (p.1.scan_list.map (fun s => s.doffset),
         q.1.scan_list.map (fun s => s.doffset))))) =
      some ([some 39], [some 39, some 39]) := by decide

/-- Claim C2: Update re-invokes the parser so that a truncated scan is
corrected and earlier entries are untouched. Corrected: Update only
marks the last gathered record as changed and re-runs the discovery
loop, which resumes at the current scan cursor; the recorded entries
are preserved as a prefix (up to the ischanged mark) and records are
only ever appended, never replaced. -/
theorem C2_update_appends (fs : FileSys) (fuel : Nat) (st st2 : PalState)
    (tr : List Int) (fin : Bool)
    (h : Update fs fuel st = .ok (st2, tr, fin)) :
    ∃ D, st2.scan_list =
      (if st.scan_list.length > 0 then markLast st.scan_list
       else st.scan_list) ++ D := by
  unfold Update at h
  by_cases hc : st.scan_list.length > 0
  · rw [if_pos hc] at h
    rw [if_pos hc]
    obtain ⟨D, hD⟩ := parse_folders_append h
    exact ⟨D, by rw [hD]⟩
  · rw [if_neg hc] at h
    rw [if_neg hc]
    exact parse_folders_append h

theorem C2_update_appends_witness :
    ∃ D, ({ stA1 with scan_list := markLast stA1.scan_list } : PalState).scan_list =
      (if stA1.scan_list.length > 0 then markLast stA1.scan_list
       else stA1.scan_list) ++ D :=
  C2_update_appends fsNone 1 stA1 { stA1 with scan_list := markLast stA1.scan_list }
    [] true (by decide)

/-- Claim C2 counterexample: a folder is parsed while its single file
is truncated after the first scan; a second scan is then appended to
the file and Update is called. Update never re-reads the file (the
cursor is already past it), so the new scan is lost: the updated state
holds only scan 1 while a one-pass parse of the final folder holds
scans 1 and 2. -/
theorem C2_counterexample :
    ((parse_folders fsOne 4 (initState [] 1)).toOption.bind (fun p =>
      (Update fsOneExt 4 p.1).toOption.bind (fun q =>
        (parse_folders fsOneExt 4 (initState [] 1)).toOption.map (fun w =>
          (q.1.scan_list.map (fun s => s.nr),
           w.1.scan_list.map (fun s => s.nr)))))) =
      some ([1], [1, 2]) := by decide

/-- Claim C3: for every scan record whose status is not NODATA (all of
which carry a present data offset), ReadData evaluates the unbound
module-global name numpy while building its dtype descriptor and
raises NameError before materializing any row. -/
theorem C3_readdata_raises_nameerror (s : SpecScanRec) (file : List (List Char))
    (d : Nat) (h1 : s.scan_status ≠ "NODATA") (h2 : s.doffset = some d) :
    ReadData s file = .error (.nameError "numpy") := by
  simp only [ReadData, h2]
  rw [if_neg h1, if_neg (by decide : ¬ (moduleBinds "numpy" = true))]

theorem C3_readdata_raises_nameerror_witness :
    recA.scan_status ≠ "NODATA" ∧
    ReadData recA fileA = .error (.nameError "numpy") :=
  ⟨by decide, C3_readdata_raises_nameerror recA fileA 39 (by decide) (by decide)⟩

/-- Claim C4: an abort marker met while a scan is open is claimed to
only mark the record ABORTED and defer finalization. Corrected: the
parser finalizes the pending record immediately at the abort line,
with status NODATA, with the data offset present and equal to the
offset of the abort line itself, without MCA parameters, and returns
to the idle state at once. -/
theorem C4_abort_finalizes (l : LoopSt) (rest raw : List Char)
    (hst : l.started = true)
    (hline : pyStrip raw = '#' :: 'C' :: rest)
    (hb : scanbrokenContains ('#' :: 'C' :: rest) = true)
    (hnCMD : startsWithL ('#' :: 'C' :: rest) "#CMD".data = false)
    (hnCOL : startsWithL ('#' :: 'C' :: rest) "#COL".data = false)
    (hnr : l.scannr.isSome = true) (hcm : l.scancmd.isSome = true)
    (hdt : l.date.isSome = true) (htm : l.time.isSome = true)
    (hit : l.itime.isSome = true) (hcn : l.colNames.isSome = true)
    (hho : l.hOffset.isSome = true) :
    ∃ s, parseStep l raw = .ok (adv (appendScan l s) (lineLen raw)) ∧
      s.scan_status = "NODATA" ∧ s.doffset = some l.off ∧ s.mca = none ∧
      (adv (appendScan l s) (lineLen raw)).started = false := by
  obtain ⟨s, e1, e2, e3, e4⟩ :=
    abort_step hst hline hb hnCMD hnCOL hnr hcm hdt htm hit hcn hho
  exact ⟨s, e1, e2, e3, e4, rfl⟩

theorem C4_abort_finalizes_witness :
    ∃ s, parseStep lAbort (Ln "#C Scan aborted") =
        .ok (adv (appendScan lAbort s) (lineLen (Ln "#C Scan aborted"))) ∧
      s.scan_status = "NODATA" ∧ s.doffset = some lAbort.off ∧ s.mca = none ∧
      (adv (appendScan lAbort s) (lineLen (Ln "#C Scan aborted"))).started = false :=
  C4_abort_finalizes lAbort (Ln " Scan aborted") (Ln "#C Scan aborted")
    (by decide) (by decide) (by decide) (by decide) (by decide) (by decide)
    (by decide) (by decide) (by decide) (by decide) (by decide) (by decide)

/-- Claim C4 counterexample: a file whose scan header is followed by a
single abort marker yields a record finalized at the abort line with
status NODATA (not ABORTED) and a present data offset equal to the
byte offset of the abort line. -/
theorem C4_counterexample :
    (ParseFile stFresh fileAbort).toOption.map (fun st =>
        (st.scan_list.map (fun s => (s.scan_status, s.doffset)),
         st.last_offset)) =
      some ([("NODATA", some 39)], some 39) := by decide

/-- Claim C5: a scan start followed by two abort markers yields one
scan with status NODATA. Corrected: exactly one record is appended,
at the first abort marker, with status NODATA, but its data offset is
present (the offset of the first abort line), not absent; the second
abort marker matches no guard in the idle state and only advances the
cursor. -/
theorem C5_double_abort (l : LoopSt) (rest1 raw1 rest2 raw2 : List Char)
    (hst : l.started = true)
    (h1 : pyStrip raw1 = '#' :: 'C' :: rest1)
    (hb1 : scanbrokenContains ('#' :: 'C' :: rest1) = true)
    (hnCMD1 : startsWithL ('#' :: 'C' :: rest1) "#CMD".data = false)
    (hnCOL1 : startsWithL ('#' :: 'C' :: rest1) "#COL".data = false)
    (h2 : pyStrip raw2 = '#' :: 'C' :: rest2)
    (hnr : l.scannr.isSome = true) (hcm : l.scancmd.isSome = true)
    (hdt : l.date.isSome = true) (htm : l.time.isSome = true)
    (hit : l.itime.isSome = true) (hcn : l.colNames.isSome = true)
    (hho : l.hOffset.isSome = true) :
    ∃ s, parseLines l [raw1, raw2] =
        .ok (adv (adv (appendScan l s) (lineLen raw1)) (lineLen raw2)) ∧
      s.scan_status = "NODATA" ∧ s.doffset = some l.off := by
  obtain ⟨s, hstep, e2, e3, _⟩ :=
    abort_step hst h1 hb1 hnCMD1 hnCOL1 hnr hcm hdt htm hit hcn hho
  refine ⟨s, ?_, e2, e3⟩
  have hc2 : classify (adv (appendScan l s) (lineLen raw1)).started
      (pyStrip raw2) = .other := by
    show classify false (pyStrip raw2) = .other
    rw [h2]
    exact classify_idle_hashC rest2
  simp only [parseLines, hstep]
  rw [parseStep_eq_other hc2]

theorem C5_double_abort_witness :
    ∃ s, parseLines lAbort [Ln "#C Scan aborted", Ln "#C Scan aborted"] =
        .ok (adv (adv (appendScan lAbort s) (lineLen (Ln "#C Scan aborted")))
          (lineLen (Ln "#C Scan aborted"))) ∧
      s.scan_status = "NODATA" ∧ s.doffset = some lAbort.off :=
  C5_double_abort lAbort (Ln " Scan aborted") (Ln "#C Scan aborted")
    (Ln " Scan aborted") (Ln "#C Scan aborted")
    (by decide) (by decide) (by decide) (by decide) (by decide) (by decide)
    (by decide) (by decide) (by decide) (by decide) (by decide) (by decide)
    (by decide)

/-- Claim C5 counterexample: scan start, two abort markers: one record
with status NODATA as claimed, but its data offset is present (byte 39,
the offset of the first abort line), not absent. -/
theorem C5_counterexample :
    (ParseFile stFresh fileAbort2).toOption.map (fun st =>
        (st.scan_list.map (fun s => (s.scan_status, s.doffset)),
         st.last_offset)) =
      some ([("NODATA", some 39)], some 39) := by decide

/-- Claim C6: at end of stream last_offset is claimed to fall back to
the header offset when the last record has no data offset, and to be
well defined even when nothing was appended. Corrected: Parse stores
the data offset of the last record unconditionally (None when that
record has none, with no header-offset fallback), and a pass whose
total scan list is empty fails with IndexError. -/
theorem C6_final_offset (st : PalState) (file : List (List Char)) (st2 : PalState)
    (h : ParseFile st file = .ok st2) :
    ∃ s, st2.scan_list.getLast? = some s ∧ st2.last_offset = s.doffset := by
  obtain ⟨o, e, s, ho, hrun, hlast, hst2⟩ := ParseFile_ok h
  subst hst2
  exact ⟨s, hlast, rfl⟩

theorem C6_final_offset_witness :
    ∃ s, stA1.scan_list.getLast? = some s ∧ stA1.last_offset = s.doffset :=
  C6_final_offset stFresh fileA stA1 (by decide)

/-- Claim C6 counterexample: a file ending in a consecutive scan header
leaves a last record with absent data offset and a present header
offset, yet last_offset becomes None rather than the header offset;
and a pass over a file with no scan at all raises IndexError instead
of reassigning last_offset. -/
theorem C6_counterexample :
    ((ParseFile stFresh fileHdr2).toOption.map (fun st =>
        (st.last_offset, st.scan_list.map (fun s => (s.doffset, s.hoffset)))) =
      some (none, [(none, 0)])) ∧
    ParseFile stFresh fileJunk = .error .indexError := by decide

/-- Claim C7: a data row with a wrong field count is claimed to demote
the scan to NODATA with no table. Code bug: the demotion logic is
unreachable; ReadData on an OK scan whose file holds such a row raises
NameError at the dtype descriptor before any row is assembled. -/
theorem C7_demotion_unreachable :
    ReadData recC7 fileC7 = .error (.nameError "numpy") := by decide

/-- Claim C8: every well-formed motor-position token is claimed to be
appended with malformed ones dropped individually. Corrected: the
conversion loop sits inside one try-except, so it stops at the first
malformed token; exactly the longest well-formed prefix of the token
list is appended and the parsing step still succeeds. -/
theorem C8_motor_values (l : LoopSt) (raw : List Char)
    (hc : classify l.started (pyStrip raw) = .val) :
    parseStep l raw = .ok (adv
      { l with
        motorVals := l.motorVals ++
                     ((splitWS (pyStrip (removeAllSub "#VAL".data
                         (pyStrip raw)))).takeWhile pyFloatAccepts).map
                       (fun t => PyFloat.ofTok (String.mk t)) }
      (lineLen raw)) := by
  rw [parseStep_eq_val hc]
  simp only [stepVal, appendFloats_takeWhile]

theorem C8_motor_values_witness :
    classify lVal.started (pyStrip (Ln "#VAL 1.0 abc 2.0")) = .val ∧
    parseStep lVal (Ln "#VAL 1.0 abc 2.0") = .ok (adv
      { lVal with
        motorVals := lVal.motorVals ++
                     ((splitWS (pyStrip (removeAllSub "#VAL".data
                         (pyStrip (Ln "#VAL 1.0 abc 2.0"))))).takeWhile
                       pyFloatAccepts).map
                       (fun t => PyFloat.ofTok (String.mk t)) }
      (lineLen (Ln "#VAL 1.0 abc 2.0"))) :=
  ⟨by decide, C8_motor_values lVal (Ln "#VAL 1.0 abc 2.0") (by decide)⟩

/-- Claim C8 counterexample: on the motor-position line VAL 1.0 abc 2.0
the well-formed token 2.0 after the malformed token abc is discarded,
refuting the claim that each well-formed token is appended. -/
theorem C8_counterexample :
    (parseStep lVal (Ln "#VAL 1.0 abc 2.0")).toOption.map
      (fun l1 => l1.motorVals) = some [PyFloat.ofTok "1.0"] := by decide

/-- Claim C9: every materialized row of an OK scan is claimed to obey
the declared arity. Code bug: no table is ever materialized; on an OK
scan with declared MCA parameters ReadData raises NameError at the
dtype descriptor, so the invariant is vacuous. -/
theorem C9_no_materialized_table :
    ReadData recC9 fileC9 = .error (.nameError "numpy") := by decide

/-- Claim C10: with files for scans 1 through 5 present and scan 6
missing, sequential discovery starting at scan 1 parses exactly scans
1 through 5 in increasing order, stops at the first missing file, and
leaves the cursor at 6. -/
theorem C10_sequential_discovery (fs : FileSys) (fuel : Nat)
    (c1 c2 c3 c4 c5 : List (List Char)) (curr : Int) (tr : List Int)
    (hf1 : fs (fileNameFor 1) = some c1)
    (hf2 : fs (fileNameFor 2) = some c2)
    (hf3 : fs (fileNameFor 3) = some c3)
    (hf4 : fs (fileNameFor 4) = some c4)
    (hf5 : fs (fileNameFor 5) = some c5)
    (hf6 : fs (fileNameFor 6) = none)
    (hrun : (parse_folders fs fuel (initState [] 1)).toOption.map
        (fun p => (p.1.curr_scan_nb, p.2.1, p.2.2)) = some (curr, tr, true)) :
    tr = [1, 2, 3, 4, 5] ∧ curr = 6 := by
  have hpf : parse_folders fs fuel (initState [] 1) =
      seqLoop fs fuel (initState [] 1) [] := by
    unfold parse_folders
    rw [if_neg]
    intro hx
    exact hx rfl
  rw [hpf] at hrun
  cases hseq : seqLoop fs fuel (initState [] 1) [] with
  | error e =>
    rw [hseq] at hrun
    simp [Except.toOption] at hrun
  | ok out =>
    obtain ⟨st2, tr2, fin⟩ := out
    rw [hseq] at hrun
    simp [Except.toOption] at hrun
    obtain ⟨e1, e2, e3⟩ := hrun
    subst e3
    obtain ⟨n, hcn, htn, hmiss, hpres⟩ := seqLoop_run fuel _ [] hseq
    have hc1 : (initState [] 1).curr_scan_nb = 1 := rfl
    rw [hc1] at hcn hpres
    rw [hcn] at hmiss
    have hne : ∀ m : Int, 1 ≤ m → m ≤ 5 → fs (fileNameFor m) ≠ none := by
      intro m hm1 hm5
      interval_cases m
      · rw [hf1]; exact fun c => Option.noConfusion c
      · rw [hf2]; exact fun c => Option.noConfusion c
      · rw [hf3]; exact fun c => Option.noConfusion c
      · rw [hf4]; exact fun c => Option.noConfusion c
      · rw [hf5]; exact fun c => Option.noConfusion c
    have hge : 5 ≤ n := by
      by_contra hlt
      push_neg at hlt
      exact hne (1 + (n : Int)) (by omega) (by omega) hmiss
    have hle : n ≤ 5 := by
      by_contra hgt
      push_neg at hgt
      have h5 := hpres 5 (by omega)
      rw [show ((1 : Int) + ((5 : Nat) : Int)) = 6 by norm_num] at h5
      exact h5 hf6
    have hn : n = 5 := by omega
    subst hn
    constructor
    · rw [← e2, htn]
      decide
    · rw [← e1, hcn]
      decide

theorem C10_sequential_discovery_witness :
    (parse_folders fsSeq 10 (initState [] 1)).toOption.map
        (fun p => (p.1.curr_scan_nb, p.2.1, p.2.2)) =
      some (6, [1, 2, 3, 4, 5], true) ∧
    ([1, 2, 3, 4, 5] : List Int) = [1, 2, 3, 4, 5] ∧ (6 : Int) = 6 :=
  ⟨by decide, C10_sequential_discovery fsSeq 10 fileA fileA fileA fileA fileA 6
    [1, 2, 3, 4, 5] (by decide) (by decide) (by decide) (by decide) (by decide)
    (by decide) (by decide)⟩
